import Mathlib

/- Shallow embedding of the Git synchronization backend of this repository
   (src-tauri/src/git): operations.rs (sync engine, branch manager, credential
   callback), clone.rs (clone engine, progress computation).  Outcomes of the
   libgit2 primitives (network transfer, merge analysis, index conflict scans,
   checkout) are inputs to the embedded functions; the control flow, result
   construction and state updates mirror the Rust source. -/

/-- Error taxonomy from types.rs (`GitError`), restricted to the variants the
claims exercise.  `Git` wraps a libgit2 error, carried here as its message. -/
inductive GitError where
  | Git (msg : String)
  | InvalidUrl (url : String)
  | DirectoryExists (path : String)
  | SystemGitNotFound
  | SystemGitFailed (msg : String)
  | Unknown (msg : String)
  deriving DecidableEq, Repr

/-- Model of `SyncResult` from types.rs: outcome record of fetch / pull / push. -/
structure SyncResult where
  success : Bool
  message : String
  has_conflicts : Bool
  conflict_files : List String
  ahead : Nat
  behind : Nat
  deriving DecidableEq, Repr

/-- The SyncResult invariant stated by the spec: conflicts imply a failed
result with zeroed counters, and a successful result has no conflict files. -/
def SyncInvariant (r : SyncResult) : Prop :=
  (r.has_conflicts = true → r.success = false ∧ r.ahead = 0 ∧ r.behind = 0) ∧
  (r.success = true → r.conflict_files = [])

/-- Abstraction of the repository data consulted by
`get_ahead_behind_count` (operations.rs): HEAD (with its shorthand branch
name and target OID), upstream-name lookup, reference lookup (returning the
optional target of the reference) and libgit2 `graph_ahead_behind`. -/
structure AheadBehindRepo where
  head : Option (Option String × Option Nat)
  upstream : String → Option String
  findRef : String → Option (Option Nat)
  graphAheadBehind : Nat → Nat → Option (Nat × Nat)

/-- Model of `get_ahead_behind_count` (operations.rs): missing HEAD, missing branch
shorthand and missing upstream each default to (0, 0); later failures are
surfaced as errors exactly as in the source. -/
def get_ahead_behind_count (r : AheadBehindRepo) : Except GitError (Nat × Nat) :=
  match r.head with
  | none => Except.ok (0, 0)
  | some (shorthand, target) =>
    match shorthand with
    | none => Except.ok (0, 0)
    | some branch_name =>
      match r.upstream ("refs/heads/" ++ branch_name) with
      | none => Except.ok (0, 0)
      | some upstream_name =>
        match target with
        | none => Except.error (GitError.Unknown "无法获取本地分支OID")
        | some local_oid =>
          match r.findRef upstream_name with
          | none => Except.error (GitError.Unknown "无法找到远程跟踪分支")
          | some utarget =>
            match utarget with
            | none => Except.error (GitError.Unknown "无法获取远程分支OID")
            | some upstream_oid =>
              match r.graphAheadBehind local_oid upstream_oid with
              | some ab => Except.ok ab
              | none => Except.error (GitError.Git "graph_ahead_behind failed")

/-- Model of `fetch_remote` (operations.rs), given the outcome of the network fetch:
on success it recomputes ahead/behind and builds the success SyncResult, on
failure it raises the wrapped libgit2 error. -/
def fetch_remote (r : AheadBehindRepo) (fetchOutcome : Except String Unit) :
    Except GitError SyncResult :=
  match fetchOutcome with
  | Except.ok _ =>
    match get_ahead_behind_count r with
    | Except.error e => Except.error e
    | Except.ok (ahead, behind) =>
      Except.ok ⟨true, "成功获取远程变更", false, [], ahead, behind⟩
  | Except.error e => Except.error (GitError.Git e)

/-- Model of `push_remote` (operations.rs): builds the refspec (with a leading `+` when
force is requested), runs the push, and on success recomputes ahead/behind. -/
def push_remote (r : AheadBehindRepo) (branch_name : String) (force : Bool)
    (push : String → Except String Unit) : Except GitError SyncResult :=
  let refspec :=
    if force then
      "+refs/heads/" ++ branch_name ++ ":refs/heads/" ++ branch_name
    else
      "refs/heads/" ++ branch_name ++ ":refs/heads/" ++ branch_name
  match push refspec with
  | Except.ok _ =>
    match get_ahead_behind_count r with
    | Except.error e => Except.error e
    | Except.ok (ahead, behind) =>
      Except.ok ⟨true, "成功推送到远程仓库", false, [], ahead, behind⟩
  | Except.error e => Except.error (GitError.Git e)

/-- The three outcomes of libgit2 `merge_analysis` distinguished by
`perform_merge` (operations.rs). -/
inductive MergeAnalysisKind where
  | fastForward
  | normal
  | other
  deriving DecidableEq, Repr

/-- Model of `perform_merge` (operations.rs), given the merge analysis and the conflict
state of the merged index (`hasConflicts` is `index.has_conflicts()`,
`conflictFiles` the paths collected from `index.conflicts()`).  Reference and
working-tree updates of the fast-forward / commit paths do not affect the
returned SyncResult and are omitted. -/
def perform_merge (analysis : MergeAnalysisKind) (hasConflicts : Bool)
    (conflictFiles : List String) : Except GitError SyncResult :=
  match analysis with
  | MergeAnalysisKind.fastForward =>
    Except.ok ⟨true, "快进合并成功", false, [], 0, 0⟩
  | MergeAnalysisKind.normal =>
    if hasConflicts then
      Except.ok ⟨false, "合并时发现冲突，请手动解决", true, conflictFiles, 0, 0⟩
    else
      Except.ok ⟨true, "合并成功", false, [], 0, 0⟩
  | MergeAnalysisKind.other =>
    Except.ok ⟨true, "无需合并", false, [], 0, 0⟩

/-- One iteration of the rebase loop in `perform_rebase` (operations.rs):
either the operation was produced and the index afterwards has the given
conflict state, or the rebase iterator yielded an error. -/
inductive RebaseStep where
  | ok (hasConflicts : Bool) (conflictFiles : List String)
  | err (msg : String)
  deriving DecidableEq, Repr

/-- A replay step that completed without index conflicts. -/
def RebaseStep.isClean : RebaseStep → Bool
  | RebaseStep.ok hc _ => !hc
  | RebaseStep.err _ => false

/-- The step loop of `perform_rebase` over repository state `σ` (HEAD plus
index).  `pre` is the pre-rebase state, `commit` the effect of committing one
replayed step (`rebase.commit`), and `rebase.abort()` restores `pre` — the
libgit2-documented behaviour of abort. -/
def perform_rebase_loop {σ : Type} (pre : σ) (commit : σ → σ) :
    σ → List RebaseStep → σ × Except GitError SyncResult
  | cur, [] => (cur, Except.ok ⟨true, "变基成功", false, [], 0, 0⟩)
  | cur, RebaseStep.ok hc files :: rest =>
    if hc then
      (pre, Except.ok ⟨false, "变基时发现冲突，请手动解决", true, files, 0, 0⟩)
    else
      perform_rebase_loop pre commit (commit cur) rest
  | _, RebaseStep.err e :: _ => (pre, Except.error (GitError.Git e))

/-- Model of `perform_rebase` (operations.rs): run the step loop from the pre-rebase
state. -/
def perform_rebase {σ : Type} (pre : σ) (commit : σ → σ)
    (steps : List RebaseStep) : σ × Except GitError SyncResult :=
  perform_rebase_loop pre commit pre steps

/-- Pull strategy from types.rs. -/
inductive PullStrategy where
  | merge
  | rebase
  deriving DecidableEq, Repr

/-- Model of `pull_remote` (operations.rs): fetch first (short-circuiting a non-success
fetch result), no-op when local HEAD equals the upstream commit, otherwise
delegate to `perform_merge` or `perform_rebase` by strategy. -/
def pull_remote {σ : Type} (r : AheadBehindRepo) (fetchOutcome : Except String Unit)
    (localOid upstreamOid : Nat) (strategy : PullStrategy)
    (analysis : MergeAnalysisKind) (mergeHasConflicts : Bool)
    (mergeFiles : List String) (pre : σ) (commit : σ → σ)
    (steps : List RebaseStep) : σ × Except GitError SyncResult :=
  match fetch_remote r fetchOutcome with
  | Except.error e => (pre, Except.error e)
  | Except.ok fr =>
    if fr.success = false then (pre, Except.ok fr)
    else if localOid = upstreamOid then
      (pre, Except.ok ⟨true, "已经是最新版本", false, [], 0, 0⟩)
    else
      match strategy with
      | PullStrategy.merge => (pre, perform_merge analysis mergeHasConflicts mergeFiles)
      | PullStrategy.rebase => perform_rebase pre commit steps

/-- Every Ok result of the rebase loop satisfies the SyncResult invariant. -/
theorem perform_rebase_loop_inv {σ : Type} (pre : σ) (commit : σ → σ) :
    ∀ (steps : List RebaseStep) (cur st : σ) (res : SyncResult),
      perform_rebase_loop pre commit cur steps = (st, Except.ok res) →
      SyncInvariant res := by
  intro steps
  induction steps with
  | nil =>
    intro cur st res h
    simp [perform_rebase_loop] at h
    simp [SyncInvariant, ← h.2]
  | cons s rest ih =>
    intro cur st res h
    cases s with
    | ok hc files =>
      cases hc with
      | true =>
        simp [perform_rebase_loop] at h
        simp [SyncInvariant, ← h.2]
      | false =>
        simp [perform_rebase_loop] at h
        exact ih (commit cur) st res h
    | err e => simp [perform_rebase_loop] at h

/-- Every Ok result of `fetch_remote` satisfies the SyncResult invariant. -/
theorem fetch_remote_inv (r : AheadBehindRepo) (fo : Except String Unit)
    (res : SyncResult) (h : fetch_remote r fo = Except.ok res) :
    SyncInvariant res := by
  unfold fetch_remote at h
  cases fo with
  | error e => simp at h
  | ok u =>
    cases hab : get_ahead_behind_count r with
    | error e => rw [hab] at h; simp at h
    | ok ab =>
      rw [hab] at h
      obtain ⟨a, b⟩ := ab
      simp at h
      simp [SyncInvariant, ← h]

/-- C1: every SyncResult returned by fetch, pull (merge or rebase strategy) or
push satisfies the invariant: has_conflicts = true implies success = false and
ahead = behind = 0, and success = true implies the conflict list is empty. -/
theorem sync_result_invariant :
    (∀ (r : AheadBehindRepo) (fo : Except String Unit) (res : SyncResult),
      fetch_remote r fo = Except.ok res → SyncInvariant res) ∧
    (∀ (r : AheadBehindRepo) (bn : String) (force : Bool)
      (p : String → Except String Unit) (res : SyncResult),
      push_remote r bn force p = Except.ok res → SyncInvariant res) ∧
    (∀ (an : MergeAnalysisKind) (hc : Bool) (cf : List String) (res : SyncResult),
      perform_merge an hc cf = Except.ok res → SyncInvariant res) ∧
    (∀ (σ : Type) (pre : σ) (commit : σ → σ) (steps : List RebaseStep)
      (st : σ) (res : SyncResult),
      perform_rebase pre commit steps = (st, Except.ok res) → SyncInvariant res) ∧
    (∀ (σ : Type) (r : AheadBehindRepo) (fo : Except String Unit)
      (lo uo : Nat) (strat : PullStrategy) (an : MergeAnalysisKind)
      (hc : Bool) (cf : List String) (pre : σ) (commit : σ → σ)
      (steps : List RebaseStep) (st : σ) (res : SyncResult),
      pull_remote r fo lo uo strat an hc cf pre commit steps = (st, Except.ok res) →
      SyncInvariant res) := by
  have hmerge : ∀ (an : MergeAnalysisKind) (hc : Bool) (cf : List String)
      (res : SyncResult), perform_merge an hc cf = Except.ok res → SyncInvariant res := by
    intro an hc cf res h
    unfold perform_merge at h
    cases an with
    | fastForward => simp at h; simp [SyncInvariant, ← h]
    | normal =>
      cases hc with
      | true => simp at h; simp [SyncInvariant, ← h]
      | false => simp at h; simp [SyncInvariant, ← h]
    | other => simp at h; simp [SyncInvariant, ← h]
  have hrebase : ∀ (σ : Type) (pre : σ) (commit : σ → σ) (steps : List RebaseStep)
      (st : σ) (res : SyncResult),
      perform_rebase pre commit steps = (st, Except.ok res) → SyncInvariant res := by
    intro σ pre commit steps st res h
    exact perform_rebase_loop_inv pre commit steps pre st res h
  refine ⟨fetch_remote_inv, ?_, hmerge, hrebase, ?_⟩
  · intro r bn force p res h
    unfold push_remote at h
    cases hp : p (if force then "+refs/heads/" ++ bn ++ ":refs/heads/" ++ bn
        else "refs/heads/" ++ bn ++ ":refs/heads/" ++ bn) with
    | error e => simp [hp] at h
    | ok u =>
      simp only [hp] at h
      cases hab : get_ahead_behind_count r with
      | error e => rw [hab] at h; simp at h
      | ok ab =>
        rw [hab] at h
        obtain ⟨a, b⟩ := ab
        simp at h
        simp [SyncInvariant, ← h]
  · intro σ r fo lo uo strat an hc cf pre commit steps st res h
    unfold pull_remote at h
    cases hf : fetch_remote r fo with
    | error e => rw [hf] at h; simp at h
    | ok fr =>
      rw [hf] at h
      by_cases hs : fr.success = false
      · simp [hs] at h
        exact h.2 ▸ fetch_remote_inv r fo fr hf
      · simp [hs] at h
        by_cases heq : lo = uo
        · simp [heq] at h
          simp [SyncInvariant, ← h.2]
        · simp [heq] at h
          cases strat with
          | merge =>
            simp at h
            exact hmerge an hc cf res h.2
          | rebase =>
            simp at h
            exact hrebase σ pre commit steps st res (by rw [h])

/-- Witness for C1 at a concrete input: the fetch conjunct evaluated on a
repository with no HEAD and a successful transfer. -/
theorem sync_result_invariant_witness :
    SyncInvariant ⟨true, "成功获取远程变更", false, [], 0, 0⟩ :=
  sync_result_invariant.1
    ⟨none, fun _ => none, fun _ => none, fun _ _ => none⟩
    (Except.ok ()) ⟨true, "成功获取远程变更", false, [], 0, 0⟩ rfl

/-- Skipping clean steps: the loop result on `clean ++ rest` (all of `clean`
conflict-free) equals its result on `rest` from some advanced state. -/
theorem perform_rebase_loop_skip {σ : Type} (pre : σ) (commit : σ → σ) :
    ∀ (clean : List RebaseStep) (cur : σ) (rest : List RebaseStep),
      (∀ s ∈ clean, s.isClean = true) →
      ∃ cur', perform_rebase_loop pre commit cur (clean ++ rest) =
        perform_rebase_loop pre commit cur' rest := by
  intro clean
  induction clean with
  | nil => intro cur rest _; exact ⟨cur, rfl⟩
  | cons s clean' ih =>
    intro cur rest hclean
    have hs : s.isClean = true := hclean s (List.mem_cons_self s clean')
    cases s with
    | ok hc files =>
      cases hc with
      | true => simp [RebaseStep.isClean] at hs
      | false =>
        have := ih (commit cur) rest (fun t ht => hclean t (List.mem_cons_of_mem _ ht))
        simpa [perform_rebase_loop] using this
    | err e => simp [RebaseStep.isClean] at hs

/-- C2: a pull with the rebase strategy whose replay hits an index conflict at
some step aborts the whole rebase — the returned repository state is exactly
the pre-rebase state — and returns (rather than raises) a SyncResult with
success = false, has_conflicts = true and the conflicted paths; an error
during a replay step likewise aborts, restoring the pre-rebase state, and is
propagated as an error. -/
theorem rebase_conflict_abort {σ : Type} (pre : σ) (commit : σ → σ)
    (clean : List RebaseStep) (hclean : ∀ s ∈ clean, s.isClean = true) :
    (∀ (files : List String) (rest : List RebaseStep),
      perform_rebase pre commit (clean ++ RebaseStep.ok true files :: rest) =
        (pre, Except.ok ⟨false, "变基时发现冲突，请手动解决", true, files, 0, 0⟩)) ∧
    (∀ (e : String) (rest : List RebaseStep),
      perform_rebase pre commit (clean ++ RebaseStep.err e :: rest) =
        (pre, Except.error (GitError.Git e))) := by
  constructor
  · intro files rest
    obtain ⟨cur', hcur⟩ :=
      perform_rebase_loop_skip pre commit clean pre (RebaseStep.ok true files :: rest) hclean
    unfold perform_rebase
    rw [hcur]
    simp [perform_rebase_loop]
  · intro e rest
    obtain ⟨cur', hcur⟩ :=
      perform_rebase_loop_skip pre commit clean pre (RebaseStep.err e :: rest) hclean
    unfold perform_rebase
    rw [hcur]
    simp [perform_rebase_loop]

/-- Witness for C2 at a concrete input: a two-step rebase whose first step is
clean and whose second step conflicts on `src/main.rs` aborts back to the
pre-rebase state 0 and reports the conflict. -/
theorem rebase_conflict_abort_witness :
    perform_rebase 0 Nat.succ
        ([RebaseStep.ok false []] ++ RebaseStep.ok true ["src/main.rs"] :: []) =
      (0, Except.ok ⟨false, "变基时发现冲突，请手动解决", true, ["src/main.rs"], 0, 0⟩) :=
  (rebase_conflict_abort 0 Nat.succ [RebaseStep.ok false []] (by decide)).1
    ["src/main.rs"] []

/-- Credential kinds handed back to libgit2 by the credential callback. -/
inductive Cred where
  | userpassPlaintext (username password : String)
  | defaultCred
  deriving DecidableEq, Repr

/-- the Rust `starts_with of Rust str`, over the characters of the strings (kept
kernel-reducible, unlike `String.startsWith`). -/
def strStartsWith (s p : String) : Bool :=
  p.toList.isPrefixOf s.toList

/-- The tail of the credential callback in `create_authenticated_callbacks`
(operations.rs): the final `if *attempts == 1` after every HTTPS branch fell
through. -/
def credentials_final (attempts : Nat) : Except String Cred :=
  if attempts = 1 then Except.ok Cred.defaultCred
  else Except.error "认证失败"

/-- The HTTPS block of the credential callback: `some r` models an early
`return r` of the Rust closure, `none` means the block fell through. -/
def credentials_https_early (url : String) (username_from_url : Option String)
    (token_cache : Option String) (attempts : Nat) :
    Option (Except String Cred) :=
  if strStartsWith url "https://" || strStartsWith url "http://" then
    match token_cache with
    | some token =>
      if attempts = 1 then some (Except.ok (Cred.userpassPlaintext token ""))
      else if attempts = 2 then
        some (Except.ok (Cred.userpassPlaintext
          (username_from_url.getD "git") token))
      else none
    | none =>
      if attempts = 1 then some (Except.ok Cred.defaultCred) else none
  else none

/-- The credential callback installed by `create_authenticated_callbacks`
(operations.rs).  `attempts` is the value of the per-operation counter after
the increment at the top of the callback, so the n-th invocation sees
`attempts = n`. -/
def credentials_callback (url : String) (username_from_url : Option String)
    (token_cache : Option String) (attempts : Nat) : Except String Cred :=
  if 3 < attempts then Except.error "认证失败：尝试次数过多"
  else
    match credentials_https_early url username_from_url token_cache attempts with
    | some r => r
    | none => credentials_final attempts

/-- C3: over an HTTPS remote with a cached token, attempt 1 supplies the token
as username with an empty password, attempt 2 supplies the username resolved
from the URL (default "git") with the token as password, and every attempt
numbered 3 or higher is rejected with an authentication-failure error, so the
callback never authorises more than the first two attempts and cannot retry
indefinitely. -/
theorem auth_attempt_cap (url : String) (user : Option String) (token : String)
    (hurl : strStartsWith url "https://" = true) :
    credentials_callback url user (some token) 1 =
        Except.ok (Cred.userpassPlaintext token "") ∧
    credentials_callback url user (some token) 2 =
        Except.ok (Cred.userpassPlaintext (user.getD "git") token) ∧
    (∀ n, 3 ≤ n → ∃ msg, credentials_callback url user (some token) n =
        Except.error msg) := by
  refine ⟨?_, ?_, ?_⟩
  · simp [credentials_callback, credentials_https_early, hurl]
  · simp [credentials_callback, credentials_https_early, hurl]
  · intro n hn
    rcases Nat.lt_or_ge 3 n with h3 | h3
    · exact ⟨"认证失败：尝试次数过多", by simp [credentials_callback, h3]⟩
    · have hn3 : n = 3 := Nat.le_antisymm h3 hn
      subst hn3
      exact ⟨"认证失败", by
        simp [credentials_callback, credentials_https_early, credentials_final, hurl]⟩

/-- Witness for C3 at a concrete input: an HTTPS GitHub URL with cached token
"tok" and no username in the URL; attempt 4 is rejected. -/
theorem auth_attempt_cap_witness :
    credentials_callback "https://github.com/a/b.git" none (some "tok") 1 =
        Except.ok (Cred.userpassPlaintext "tok" "") ∧
    credentials_callback "https://github.com/a/b.git" none (some "tok") 2 =
        Except.ok (Cred.userpassPlaintext "git" "tok") ∧
    (∃ msg, credentials_callback "https://github.com/a/b.git" none (some "tok") 4 =
        Except.error msg) := by
  obtain ⟨h1, h2, h3⟩ :=
    auth_attempt_cap "https://github.com/a/b.git" none "tok" (by decide)
  exact ⟨h1, h2, h3 4 (by decide)⟩

/-- C10: whenever the repository has no HEAD, the current branch shorthand
cannot be resolved, or the current branch has no configured upstream, the
ahead/behind computation used by status, fetch and push returns
ahead = 0 and behind = 0 rather than raising an error. -/
theorem ahead_behind_defaults_zero (r : AheadBehindRepo)
    (h : r.head = none ∨
         (∃ t, r.head = some (none, t)) ∨
         (∃ n t, r.head = some (some n, t) ∧
            r.upstream ("refs/heads/" ++ n) = none)) :
    get_ahead_behind_count r = Except.ok (0, 0) := by
  rcases h with h0 | ⟨t, h1⟩ | ⟨n, t, h2, hup⟩
  · simp [get_ahead_behind_count, h0]
  · simp [get_ahead_behind_count, h1]
  · simp [get_ahead_behind_count, h2, hup]

/-- Witness for C10 at a concrete input: a repository whose current branch
"main" has no configured upstream. -/
theorem ahead_behind_defaults_zero_witness :
    get_ahead_behind_count
      ⟨some (some "main", some 5), fun _ => none, fun _ => none,
        fun _ _ => some (1, 2)⟩ = Except.ok (0, 0) :=
  ahead_behind_defaults_zero
    ⟨some (some "main", some 5), fun _ => none, fun _ => none,
      fun _ _ => some (1, 2)⟩
    (Or.inr (Or.inr ⟨"main", some 5, rfl, rfl⟩))

/-- the Rust `contains of Rust str` over the characters of the strings: does the
second list occur contiguously inside the first? -/
def listContainsSub : List Char → List Char → Bool
  | [], pat => pat.isEmpty
  | c :: rest, pat => pat.isPrefixOf (c :: rest) || listContainsSub rest pat

/-- the Rust `contains of Rust str` for strings. -/
def strContains (s pat : String) : Bool :=
  listContainsSub s.toList pat.toList

/-- Model of `is_ssh_hostkey_error` (clone.rs): an SSH host-key-negotiation signature
in the text of a libgit2 error. -/
def is_ssh_hostkey_error (msg : String) : Bool :=
  strContains msg "hostkey preference" ||
  strContains msg "The requested method(s) are not currently supported" ||
  strContains msg "class=Ssh"

/-- Model of `CloneOptions` from types.rs, restricted to the fields the clone engine
reads. -/
structure CloneOptions where
  url : String
  directory : String
  branch : Option String
  depth : Option Nat
  recursive : Bool
  deriving DecidableEq, Repr

/-- Model of `CloneResult` from types.rs, restricted to the fields the claims read. -/
structure CloneResult where
  success : Bool
  repository_path : Option String
  error : Option String
  deriving DecidableEq, Repr

/-- Model of `validate_clone_options` (clone.rs): `some e` is the validation error the
Rust code returns early with, `none` means validation passed. -/
def validate_clone_options (o : CloneOptions) : Option GitError :=
  if o.url = "" then some (GitError.InvalidUrl "URL 不能为空")
  else if !(strStartsWith o.url "http://" || strStartsWith o.url "https://" ||
      strStartsWith o.url "git@" || strStartsWith o.url "ssh://") then
    some (GitError.InvalidUrl o.url)
  else if o.directory = "" then some (GitError.Unknown "目标目录不能为空")
  else none

/-- Model of `clone_with_libgit2` (clone.rs) over an abstract filesystem state `σ`:
validate, fail with `DirectoryExists` when the destination exists and is
non-empty, then create parent directories and run the embedded clone
(`doClone`, which may mutate the filesystem and fail with a libgit2 error
message).  Progress emission is modelled separately by
`clone_with_libgit2_emits`. -/
def clone_with_libgit2 {σ : Type} (o : CloneOptions) (fs : σ)
    (existsNonEmpty : σ → String → Bool) (createParents : σ → σ)
    (doClone : σ → σ × Except String Unit) : σ × Except GitError CloneResult :=
  match validate_clone_options o with
  | some e => (fs, Except.error e)
  | none =>
    if existsNonEmpty fs o.directory then
      (fs, Except.error (GitError.DirectoryExists o.directory))
    else
      let fs1 := createParents fs
      match doClone fs1 with
      | (fs2, Except.error e) => (fs2, Except.error (GitError.Git e))
      | (fs2, Except.ok _) => (fs2, Except.ok ⟨true, some o.directory, none⟩)

/-- Model of `clone_repository_sync` (clone.rs), the dual-path executor: try the
embedded clone first; when it fails with a libgit2 error whose text matches
the SSH host-key signature, run the external system-git clone instead; every
other outcome is passed through unchanged. -/
def clone_repository_sync {σ : Type} (o : CloneOptions) (fs : σ)
    (existsNonEmpty : σ → String → Bool) (createParents : σ → σ)
    (doClone : σ → σ × Except String Unit)
    (systemGit : σ → σ × Except GitError CloneResult) :
    σ × Except GitError CloneResult :=
  match clone_with_libgit2 o fs existsNonEmpty createParents doClone with
  | (fs', Except.ok r) => (fs', Except.ok r)
  | (fs', Except.error (GitError.Git e)) =>
    if is_ssh_hostkey_error e then systemGit fs'
    else (fs', Except.error (GitError.Git e))
  | (fs', Except.error e) => (fs', Except.error e)

/-- C4: the clone is re-run through the external system git exactly when the
embedded clone failed with a library (`Git`) error whose message matches the
SSH host-key signature of `is_ssh_hostkey_error`; every other failure — and
every success — is propagated unchanged. -/
theorem clone_fallback_iff_ssh_hostkey {σ : Type} (o : CloneOptions) (fs : σ)
    (en : σ → String → Bool) (cp : σ → σ) (dc : σ → σ × Except String Unit)
    (sysGit : σ → σ × Except GitError CloneResult) :
    (∀ (fs' : σ) (r : CloneResult),
      clone_with_libgit2 o fs en cp dc = (fs', Except.ok r) →
      clone_repository_sync o fs en cp dc sysGit = (fs', Except.ok r)) ∧
    (∀ (fs' : σ) (e : String),
      clone_with_libgit2 o fs en cp dc = (fs', Except.error (GitError.Git e)) →
      is_ssh_hostkey_error e = true →
      clone_repository_sync o fs en cp dc sysGit = sysGit fs') ∧
    (∀ (fs' : σ) (err : GitError),
      clone_with_libgit2 o fs en cp dc = (fs', Except.error err) →
      (∀ e, err = GitError.Git e → is_ssh_hostkey_error e = false) →
      clone_repository_sync o fs en cp dc sysGit = (fs', Except.error err)) := by
  refine ⟨?_, ?_, ?_⟩
  · intro fs' r h
    unfold clone_repository_sync
    rw [h]
  · intro fs' e h hssh
    unfold clone_repository_sync
    rw [h]
    simp [hssh]
  · intro fs' err h hnossh
    unfold clone_repository_sync
    rw [h]
    cases err with
    | Git e => simp [hnossh e rfl]
    | InvalidUrl u => rfl
    | DirectoryExists p => rfl
    | SystemGitNotFound => rfl
    | SystemGitFailed m => rfl
    | Unknown m => rfl

/-- Witness for C4 at a concrete input: an embedded clone failing with a
`class=Ssh` library error falls back to the external path, whose result is
returned. -/
theorem clone_fallback_iff_ssh_hostkey_witness :
    clone_repository_sync ⟨"git@github.com:a/b.git", "/tmp/dst", none, none, false⟩
        (0 : Nat) (fun _ _ => false) id
        (fun s => (s, Except.error "error; class=Ssh (-1)"))
        (fun s => (s + 1, Except.ok ⟨true, some "/tmp/dst", none⟩)) =
      (1, Except.ok ⟨true, some "/tmp/dst", none⟩) :=
  (clone_fallback_iff_ssh_hostkey
      ⟨"git@github.com:a/b.git", "/tmp/dst", none, none, false⟩ 0
      (fun _ _ => false) id (fun s => (s, Except.error "error; class=Ssh (-1)"))
      (fun s => (s + 1, Except.ok ⟨true, some "/tmp/dst", none⟩))).2.1
    0 "error; class=Ssh (-1)" rfl rfl

/-- C5 (counterexample): the claim is false as stated — a clone request whose
destination exists and is non-empty but whose URL is empty fails with
`InvalidUrl`, not `DirectoryExists`, because URL validation runs before the
destination check. -/
theorem clone_directory_exists_cex :
    (clone_repository_sync ⟨"", "/tmp/x", none, none, false⟩ (0 : Nat)
        (fun _ _ => true) id (fun s => (s, Except.ok ()))
        (fun s => (s, Except.error GitError.SystemGitNotFound))).2 =
      Except.error (GitError.InvalidUrl "URL 不能为空") ∧
    GitError.InvalidUrl "URL 不能为空" ≠ GitError.DirectoryExists "/tmp/x" :=
  ⟨rfl, by decide⟩

/-- C5 (amended): for every clone request that passes option validation
(non-empty URL with a known scheme, non-empty destination string) and whose
destination directory exists and is non-empty, the clone fails with
`DirectoryExists`, the filesystem state is returned untouched, and the
failure is terminal — the result does not depend on the external system-git
path, so it is never retried there. -/
theorem clone_directory_exists_terminal {σ : Type} (o : CloneOptions) (fs : σ)
    (en : σ → String → Bool) (cp : σ → σ) (dc : σ → σ × Except String Unit)
    (sysGit : σ → σ × Except GitError CloneResult)
    (hval : validate_clone_options o = none)
    (hex : en fs o.directory = true) :
    clone_repository_sync o fs en cp dc sysGit =
      (fs, Except.error (GitError.DirectoryExists o.directory)) := by
  have hlib : clone_with_libgit2 o fs en cp dc =
      (fs, Except.error (GitError.DirectoryExists o.directory)) := by
    unfold clone_with_libgit2
    rw [hval, hex]
    rfl
  unfold clone_repository_sync
  rw [hlib]

/-- Witness for C5 (amended) at a concrete input: a valid HTTPS URL into an
existing non-empty directory. -/
theorem clone_directory_exists_terminal_witness :
    clone_repository_sync ⟨"https://example/repo.git", "/tmp/x", none, none, false⟩
        (7 : Nat) (fun _ _ => true) id (fun s => (s, Except.ok ()))
        (fun s => (s, Except.error GitError.SystemGitNotFound)) =
      (7, Except.error (GitError.DirectoryExists "/tmp/x")) :=
  clone_directory_exists_terminal
    ⟨"https://example/repo.git", "/tmp/x", none, none, false⟩ 7
    (fun _ _ => true) id (fun s => (s, Except.ok ()))
    (fun s => (s, Except.error GitError.SystemGitNotFound))
    (by decide) rfl

/-- Model of `NetworkProgress` from types.rs. -/
structure NetworkProgress where
  received_bytes : Nat
  received_objects : Nat
  total_objects : Nat
  indexed_objects : Nat
  deriving DecidableEq, Repr

/-- Base-2 logarithm on naturals, fuel-structured. -/
def natLog2Aux : Nat → Nat → Nat
  | 0, _ => 0
  | fuel + 1, n => if 2 ≤ n then natLog2Aux fuel (n / 2) + 1 else 0

/-- Base-2 logarithm on naturals. -/
def natLog2 (n : Nat) : Nat := natLog2Aux n n

theorem natLog2Aux_spec : ∀ (fuel n : Nat), 1 ≤ n → n ≤ fuel →
    2 ^ natLog2Aux fuel n ≤ n ∧ n < 2 ^ (natLog2Aux fuel n + 1) := by
  intro fuel
  induction fuel with
  | zero => intro n h1 h2; omega
  | succ f ih =>
    intro n h1 h2
    by_cases h : 2 ≤ n
    · have hrec := ih (n / 2) (by omega) (by omega)
      simp only [natLog2Aux, if_pos h]
      constructor
      · calc 2 ^ (natLog2Aux f (n / 2) + 1) = 2 * 2 ^ natLog2Aux f (n / 2) := by ring
          _ ≤ 2 * (n / 2) := by omega
          _ ≤ n := by omega
      · calc n < 2 * (n / 2) + 2 := by omega
          _ ≤ 2 * 2 ^ (natLog2Aux f (n / 2) + 1) := by omega
          _ = 2 ^ (natLog2Aux f (n / 2) + 1 + 1) := by ring
    · simp only [natLog2Aux, if_neg h]
      omega

theorem natLog2_spec (n : Nat) (h : 1 ≤ n) :
    2 ^ natLog2 n ≤ n ∧ n < 2 ^ (natLog2 n + 1) :=
  natLog2Aux_spec n n h (le_refl n)

/-- Binary order of magnitude of a positive rational: the integer `k` with
`2 ^ k ≤ q < 2 ^ (k + 1)`. -/
def ratILog2 (q : ℚ) : ℤ :=
  if 1 ≤ q then (natLog2 (Int.toNat ⌊q⌋) : ℤ)
  else
    if q * 2 ^ natLog2 (Int.toNat ⌊q⁻¹⌋) = 1 then
      -(natLog2 (Int.toNat ⌊q⁻¹⌋) : ℤ)
    else
      -(natLog2 (Int.toNat ⌊q⁻¹⌋) : ℤ) - 1

theorem natLog2_floor_bracket {q : ℚ} (hq : 1 ≤ q) :
    (2 : ℚ) ^ natLog2 (Int.toNat ⌊q⌋) ≤ q ∧
      q < 2 ^ (natLog2 (Int.toNat ⌊q⌋) + 1) := by
  have hfl : 1 ≤ ⌊q⌋ := Int.le_floor.mpr (by exact_mod_cast hq)
  have hn1 : 1 ≤ Int.toNat ⌊q⌋ := by omega
  obtain ⟨hl, hr⟩ := natLog2_spec (Int.toNat ⌊q⌋) hn1
  have hcast : ((Int.toNat ⌊q⌋ : ℤ) : ℚ) = ((⌊q⌋ : ℤ) : ℚ) := by
    rw [Int.toNat_of_nonneg (by omega)]
  constructor
  · calc (2 : ℚ) ^ natLog2 (Int.toNat ⌊q⌋)
        = ((2 ^ natLog2 (Int.toNat ⌊q⌋) : ℕ) : ℚ) := by push_cast; ring
      _ ≤ ((Int.toNat ⌊q⌋ : ℕ) : ℚ) := by exact_mod_cast hl
      _ = ((⌊q⌋ : ℤ) : ℚ) := by exact_mod_cast hcast
      _ ≤ q := Int.floor_le q
  · calc q < ((⌊q⌋ : ℤ) : ℚ) + 1 := Int.lt_floor_add_one q
      _ = ((Int.toNat ⌊q⌋ : ℕ) : ℚ) + 1 := by rw [← hcast]; push_cast; ring
      _ ≤ ((2 ^ (natLog2 (Int.toNat ⌊q⌋) + 1) : ℕ) : ℚ) := by exact_mod_cast hr
      _ = 2 ^ (natLog2 (Int.toNat ⌊q⌋) + 1) := by push_cast; ring

theorem ratILog2_spec {q : ℚ} (hq : 0 < q) :
    (2 : ℚ) ^ ratILog2 q ≤ q ∧ q < 2 ^ (ratILog2 q + 1) := by
  by_cases h1 : 1 ≤ q
  · obtain ⟨hl, hr⟩ := natLog2_floor_bracket h1
    rw [ratILog2, if_pos h1]
    constructor
    · rw [zpow_natCast]; exact hl
    · rw [show ((natLog2 (Int.toNat ⌊q⌋) : ℤ) + 1) =
          (((natLog2 (Int.toNat ⌊q⌋) + 1 : ℕ) : ℤ)) by push_cast; ring,
        zpow_natCast]
      exact hr
  · push_neg at h1
    have hq0 : q ≠ 0 := ne_of_gt hq
    have hinv1 : 1 ≤ q⁻¹ := le_of_lt (one_lt_inv_iff₀.mpr ⟨hq, h1⟩)
    obtain ⟨hlow, hup⟩ := natLog2_floor_bracket hinv1
    have h2jpos : (0 : ℚ) < 2 ^ natLog2 (Int.toNat ⌊q⁻¹⌋) := by positivity
    rw [ratILog2, if_neg (not_le.mpr h1)]
    by_cases hex : q * 2 ^ natLog2 (Int.toNat ⌊q⁻¹⌋) = 1
    · rw [if_pos hex]
      have hqinv : q⁻¹ = 2 ^ natLog2 (Int.toNat ⌊q⁻¹⌋) := by
        have h := congrArg (fun x => q⁻¹ * x) hex
        simpa [← mul_assoc, inv_mul_cancel₀ hq0, eq_comm] using h
      refine ⟨?_, ?_⟩
      · rw [zpow_neg, zpow_natCast, inv_le_comm₀ h2jpos hq]
        exact hqinv.le
      · have h2 : (2 : ℚ) ^ (-(natLog2 (Int.toNat ⌊q⁻¹⌋) : ℤ) + 1) =
            2 * ((2 : ℚ) ^ natLog2 (Int.toNat ⌊q⁻¹⌋))⁻¹ := by
          rw [zpow_add₀ (by norm_num : (2:ℚ) ≠ 0), zpow_neg, zpow_natCast,
            zpow_one]
          ring
        have hq' : q = ((2 : ℚ) ^ natLog2 (Int.toNat ⌊q⁻¹⌋))⁻¹ := by
          rw [← hqinv, inv_inv]
        have hpos : (0 : ℚ) < ((2 : ℚ) ^ natLog2 (Int.toNat ⌊q⁻¹⌋))⁻¹ := by
          positivity
        rw [h2]
        linarith
    · rw [if_neg hex]
      have hstrict : (2 : ℚ) ^ natLog2 (Int.toNat ⌊q⁻¹⌋) < q⁻¹ := by
        refine lt_of_le_of_ne hlow ?_
        intro h
        exact hex (by rw [h, mul_inv_cancel₀ hq0])
      refine ⟨?_, ?_⟩
      · have h2 : (2 : ℚ) ^ (-(natLog2 (Int.toNat ⌊q⁻¹⌋) : ℤ) - 1) =
            ((2 : ℚ) ^ (natLog2 (Int.toNat ⌊q⁻¹⌋) + 1))⁻¹ := by
          rw [show (-(natLog2 (Int.toNat ⌊q⁻¹⌋) : ℤ) - 1) =
              -((natLog2 (Int.toNat ⌊q⁻¹⌋) : ℤ) + 1) by ring, zpow_neg,
            show ((natLog2 (Int.toNat ⌊q⁻¹⌋) : ℤ) + 1) =
              ((natLog2 (Int.toNat ⌊q⁻¹⌋) + 1 : ℕ) : ℤ) by push_cast; ring,
            zpow_natCast]
        rw [h2, inv_le_comm₀ (by positivity) hq]
        exact hup.le
      · have h2 : (2 : ℚ) ^ (-(natLog2 (Int.toNat ⌊q⁻¹⌋) : ℤ) - 1 + 1) =
            ((2 : ℚ) ^ natLog2 (Int.toNat ⌊q⁻¹⌋))⁻¹ := by
          rw [show (-(natLog2 (Int.toNat ⌊q⁻¹⌋) : ℤ) - 1 + 1) =
              -(natLog2 (Int.toNat ⌊q⁻¹⌋) : ℤ) by ring, zpow_neg, zpow_natCast]
        rw [h2, lt_inv_comm₀ hq h2jpos]
        exact hstrict

/-- The bracket `2 ^ k ≤ q < 2 ^ (k + 1)` determines `ratILog2 q`. -/
theorem ratILog2_eq_of_bracket {q : ℚ} {k : ℤ} (hq : 0 < q)
    (h1 : (2 : ℚ) ^ k ≤ q) (h2 : q < 2 ^ (k + 1)) : ratILog2 q = k := by
  obtain ⟨hl, hr⟩ := ratILog2_spec hq
  have ha : (2 : ℚ) ^ ratILog2 q < 2 ^ (k + 1) := lt_of_le_of_lt hl h2
  have hb : (2 : ℚ) ^ k < 2 ^ (ratILog2 q + 1) := lt_of_le_of_lt h1 hr
  have ha' : ratILog2 q < k + 1 :=
    (zpow_lt_zpow_iff_right₀ (by norm_num : (1:ℚ) < 2)).mp ha
  have hb' : k < ratILog2 q + 1 :=
    (zpow_lt_zpow_iff_right₀ (by norm_num : (1:ℚ) < 2)).mp hb
  omega

/-- Round a rational to the nearest integer, ties to the even integer —
IEEE 754 roundTiesToEven restricted to the final integer rounding step. -/
def rhe (m : ℚ) : ℤ :=
  if m - ⌊m⌋ < 1/2 then ⌊m⌋
  else if 1/2 < m - ⌊m⌋ then ⌊m⌋ + 1
  else if ⌊m⌋ % 2 = 0 then ⌊m⌋ else ⌊m⌋ + 1

theorem rhe_floor_le (m : ℚ) : ⌊m⌋ ≤ rhe m := by
  unfold rhe
  split_ifs <;> omega

theorem rhe_le_floor_add_one (m : ℚ) : rhe m ≤ ⌊m⌋ + 1 := by
  unfold rhe
  split_ifs <;> omega

theorem rhe_intCast (j : ℤ) : rhe ((j : ℤ) : ℚ) = j := by
  unfold rhe
  rw [Int.floor_intCast]
  norm_num

theorem rhe_mono {x y : ℚ} (h : x ≤ y) : rhe x ≤ rhe y := by
  rcases lt_or_eq_of_le (Int.floor_le_floor h) with hf | hf
  · calc rhe x ≤ ⌊x⌋ + 1 := rhe_le_floor_add_one x
      _ ≤ ⌊y⌋ := by omega
      _ ≤ rhe y := rhe_floor_le y
  · have hfrac : x - ⌊x⌋ ≤ y - ⌊y⌋ := by
      rw [hf] at *
      linarith
    unfold rhe
    rw [hf]
    split_ifs with a b c d e f g <;> first | omega | linarith

theorem rhe_err (m : ℚ) : |(rhe m : ℚ) - m| ≤ 1/2 := by
  have h1 : (⌊m⌋ : ℚ) ≤ m := Int.floor_le m
  have h2 : m < ⌊m⌋ + 1 := Int.lt_floor_add_one m
  unfold rhe
  split_ifs with a b c <;> push_cast <;> rw [abs_le] <;> constructor <;> linarith

/-- One IEEE-754 binary64 rounding step (roundTiesToEven, 53-bit significand,
unbounded exponent, which is exact binary64 for the normal range): scale into
[2^52, 2^53), round to an integer with ties to even, scale back.  Every
argument in this model is nonnegative; nonpositive input returns 0 (0.0 is
exact in binary64). -/
def fround (q : ℚ) : ℚ :=
  if q ≤ 0 then 0
  else (rhe (q * 2 ^ (52 - ratILog2 q)) : ℚ) * 2 ^ (ratILog2 q - 52)

theorem two_zpow_mul (a b : ℤ) : (2 : ℚ) ^ a * 2 ^ b = 2 ^ (a + b) :=
  (zpow_add₀ (by norm_num : (2 : ℚ) ≠ 0) a b).symm

theorem two_zpow_pos (a : ℤ) : (0 : ℚ) < 2 ^ a :=
  zpow_pos (by norm_num) a

theorem fround_scaled_lb {q : ℚ} (hq : 0 < q) :
    (2 : ℚ) ^ (52 : ℤ) ≤ q * 2 ^ (52 - ratILog2 q) := by
  have h := (ratILog2_spec hq).1
  calc (2 : ℚ) ^ (52 : ℤ) = 2 ^ ratILog2 q * 2 ^ (52 - ratILog2 q) := by
        rw [two_zpow_mul]; ring_nf
    _ ≤ q * 2 ^ (52 - ratILog2 q) :=
        mul_le_mul_of_nonneg_right h (le_of_lt (two_zpow_pos _))

theorem fround_scaled_ub {q : ℚ} (hq : 0 < q) :
    q * 2 ^ (52 - ratILog2 q) < (2 : ℚ) ^ (53 : ℤ) := by
  have h := (ratILog2_spec hq).2
  calc q * 2 ^ (52 - ratILog2 q)
      < 2 ^ (ratILog2 q + 1) * 2 ^ (52 - ratILog2 q) :=
        mul_lt_mul_of_pos_right h (two_zpow_pos _)
    _ = (2 : ℚ) ^ (53 : ℤ) := by rw [two_zpow_mul]; ring_nf

theorem cast_two_pow_53 : (((2 : ℤ) ^ (53 : ℕ) : ℤ) : ℚ) = (2 : ℚ) ^ (53 : ℤ) := by
  norm_num

theorem cast_two_pow_52 : (((2 : ℤ) ^ (52 : ℕ) : ℤ) : ℚ) = (2 : ℚ) ^ (52 : ℤ) := by
  norm_num

theorem rhe_scaled_ub {q : ℚ} (hq : 0 < q) :
    rhe (q * 2 ^ (52 - ratILog2 q)) ≤ 2 ^ (53 : ℕ) := by
  have hm := fround_scaled_ub hq
  have hfl : ⌊q * 2 ^ (52 - ratILog2 q)⌋ < (2 : ℤ) ^ (53 : ℕ) := by
    rw [Int.floor_lt, cast_two_pow_53]
    exact hm
  have := rhe_le_floor_add_one (q * 2 ^ (52 - ratILog2 q))
  omega

theorem rhe_scaled_lb {q : ℚ} (hq : 0 < q) :
    (2 : ℤ) ^ (52 : ℕ) ≤ rhe (q * 2 ^ (52 - ratILog2 q)) := by
  have hm := fround_scaled_lb hq
  have hfl : (2 : ℤ) ^ (52 : ℕ) ≤ ⌊q * 2 ^ (52 - ratILog2 q)⌋ := by
    rw [Int.le_floor, cast_two_pow_52]
    exact hm
  have := rhe_floor_le (q * 2 ^ (52 - ratILog2 q))
  omega

theorem fround_nonneg (q : ℚ) : 0 ≤ fround q := by
  unfold fround
  split_ifs with h
  · exact le_refl 0
  · push_neg at h
    have hm : (0 : ℚ) < q * 2 ^ (52 - ratILog2 q) :=
      mul_pos h (two_zpow_pos _)
    have hfl : (0 : ℤ) ≤ ⌊q * 2 ^ (52 - ratILog2 q)⌋ :=
      Int.floor_nonneg.mpr (le_of_lt hm)
    have hrhe := rhe_floor_le (q * 2 ^ (52 - ratILog2 q))
    exact mul_nonneg (by exact_mod_cast (by omega : (0:ℤ) ≤ rhe (q * 2 ^ (52 - ratILog2 q))))
      (le_of_lt (two_zpow_pos _))

theorem fround_mono {x y : ℚ} (h : x ≤ y) : fround x ≤ fround y := by
  by_cases hx : x ≤ 0
  · rw [fround, if_pos hx]
    exact fround_nonneg y
  · push_neg at hx
    have hy : 0 < y := lt_of_lt_of_le hx h
    rw [fround, if_neg (not_le.mpr hx), fround, if_neg (not_le.mpr hy)]
    have hk : ratILog2 x ≤ ratILog2 y := by
      have h1 : (2 : ℚ) ^ ratILog2 x ≤ y := le_trans (ratILog2_spec hx).1 h
      have h2 : (2 : ℚ) ^ ratILog2 x < 2 ^ (ratILog2 y + 1) :=
        lt_of_le_of_lt h1 (ratILog2_spec hy).2
      have := (zpow_lt_zpow_iff_right₀ (by norm_num : (1:ℚ) < 2)).mp h2
      omega
    rcases eq_or_lt_of_le hk with hkk | hkk
    · rw [← hkk]
      have hmm : x * 2 ^ (52 - ratILog2 x) ≤ y * 2 ^ (52 - ratILog2 x) :=
        mul_le_mul_of_nonneg_right h (le_of_lt (two_zpow_pos _))
      have := rhe_mono hmm
      exact mul_le_mul_of_nonneg_right (by exact_mod_cast this)
        (le_of_lt (two_zpow_pos _))
    · have hxub : (rhe (x * 2 ^ (52 - ratILog2 x)) : ℚ) * 2 ^ (ratILog2 x - 52) ≤
          2 ^ (ratILog2 x + 1) := by
        calc (rhe (x * 2 ^ (52 - ratILog2 x)) : ℚ) * 2 ^ (ratILog2 x - 52)
            ≤ (2 : ℚ) ^ (53 : ℤ) * 2 ^ (ratILog2 x - 52) := by
              refine mul_le_mul_of_nonneg_right ?_ (le_of_lt (two_zpow_pos _))
              rw [← cast_two_pow_53]
              exact_mod_cast rhe_scaled_ub hx
          _ = 2 ^ (ratILog2 x + 1) := by rw [two_zpow_mul]; ring_nf
      have hylb : (2 : ℚ) ^ ratILog2 y ≤
          (rhe (y * 2 ^ (52 - ratILog2 y)) : ℚ) * 2 ^ (ratILog2 y - 52) := by
        calc (2 : ℚ) ^ ratILog2 y
            = (2 : ℚ) ^ (52 : ℤ) * 2 ^ (ratILog2 y - 52) := by
              rw [two_zpow_mul]; ring_nf
          _ ≤ (rhe (y * 2 ^ (52 - ratILog2 y)) : ℚ) * 2 ^ (ratILog2 y - 52) := by
              refine mul_le_mul_of_nonneg_right ?_ (le_of_lt (two_zpow_pos _))
              rw [← cast_two_pow_52]
              exact_mod_cast rhe_scaled_lb hy
      calc (rhe (x * 2 ^ (52 - ratILog2 x)) : ℚ) * 2 ^ (ratILog2 x - 52)
          ≤ 2 ^ (ratILog2 x + 1) := hxub
        _ ≤ 2 ^ ratILog2 y :=
            zpow_le_zpow_right₀ (by norm_num : (1:ℚ) ≤ 2) (by omega)
        _ ≤ (rhe (y * 2 ^ (52 - ratILog2 y)) : ℚ) * 2 ^ (ratILog2 y - 52) := hylb

theorem cast_nat_two_pow_53 : (((2 : ℕ) ^ (53 : ℕ) : ℕ) : ℚ) = (2 : ℚ) ^ (53 : ℤ) := by
  norm_num

/-- Naturals below 2^53 are exactly representable: casting to binary64 is the
identity on them. -/
theorem fround_natCast {n : ℕ} (h : n < 2 ^ (53 : ℕ)) : fround (n : ℚ) = n := by
  rcases Nat.eq_zero_or_pos n with rfl | hn
  · rw [fround, if_pos (by norm_num)]
    norm_num
  · have hq : (0 : ℚ) < n := by exact_mod_cast hn
    rw [fround, if_neg (not_le.mpr hq)]
    obtain ⟨hl, hr⟩ := ratILog2_spec hq
    have hk0 : 0 ≤ ratILog2 (n : ℚ) := by
      have h1 : ((2 : ℚ)) ^ (0 : ℤ) ≤ (n : ℚ) := by
        rw [zpow_zero]
        exact_mod_cast hn
      have h2 := (zpow_lt_zpow_iff_right₀ (by norm_num : (1:ℚ) < 2)).mp
        (lt_of_le_of_lt h1 hr)
      omega
    have hk53 : ratILog2 (n : ℚ) ≤ 52 := by
      have h2 : (n : ℚ) < (2 : ℚ) ^ (53 : ℤ) := by
        rw [← cast_nat_two_pow_53]
        exact_mod_cast h
      have h3 := (zpow_lt_zpow_iff_right₀ (by norm_num : (1:ℚ) < 2)).mp
        (lt_of_le_of_lt hl h2)
      omega
    obtain ⟨D, hD⟩ : ∃ D : ℕ, (D : ℤ) = 52 - ratILog2 (n : ℚ) :=
      ⟨(52 - ratILog2 (n : ℚ)).toNat, Int.toNat_of_nonneg (by omega)⟩
    have hm : (n : ℚ) * 2 ^ (52 - ratILog2 (n : ℚ)) =
        (((n * 2 ^ D : ℕ) : ℤ) : ℚ) := by
      rw [← hD, zpow_natCast]
      push_cast
      ring
    rw [hm, rhe_intCast]
    have hexp : (ratILog2 (n : ℚ) - 52 : ℤ) = -(D : ℤ) := by omega
    rw [hexp, zpow_neg, zpow_natCast]
    push_cast
    rw [mul_assoc, mul_inv_cancel₀ (ne_of_gt (by positivity : (0:ℚ) < 2 ^ D)),
      mul_one]

/-- One binary64 rounding step has relative error at most 2^(-53). -/
theorem fround_err {q : ℚ} (hq : 0 ≤ q) :
    |fround q - q| ≤ q * 2 ^ (-(53 : ℤ)) := by
  rcases eq_or_lt_of_le hq with rfl | hq0
  · rw [fround, if_pos (le_refl 0)]
    norm_num
  · rw [fround, if_neg (not_le.mpr hq0)]
    have hqm : q = q * 2 ^ (52 - ratILog2 q) * 2 ^ (ratILog2 q - 52) := by
      rw [mul_assoc, two_zpow_mul]
      norm_num
    have herr := rhe_err (q * 2 ^ (52 - ratILog2 q))
    have hpos : (0 : ℚ) < 2 ^ (ratILog2 q - 52) := two_zpow_pos _
    calc |(rhe (q * 2 ^ (52 - ratILog2 q)) : ℚ) * 2 ^ (ratILog2 q - 52) - q|
        = |((rhe (q * 2 ^ (52 - ratILog2 q)) : ℚ) -
            q * 2 ^ (52 - ratILog2 q)) * 2 ^ (ratILog2 q - 52)| := by
          rw [sub_mul]
          congr 1
          rw [← hqm]
      _ = |(rhe (q * 2 ^ (52 - ratILog2 q)) : ℚ) -
            q * 2 ^ (52 - ratILog2 q)| * 2 ^ (ratILog2 q - 52) := by
          rw [abs_mul, abs_of_pos hpos]
      _ ≤ (1 / 2) * 2 ^ (ratILog2 q - 52) :=
          mul_le_mul_of_nonneg_right herr (le_of_lt hpos)
      _ = 2 ^ (ratILog2 q - 53) := by
          rw [show (ratILog2 q - 53 : ℤ) = (-1) + (ratILog2 q - 52) by ring,
            ← two_zpow_mul]
          norm_num
      _ = 2 ^ ratILog2 q * 2 ^ (-(53 : ℤ)) := by
          rw [two_zpow_mul]
          ring_nf
      _ ≤ q * 2 ^ (-(53 : ℤ)) :=
          mul_le_mul_of_nonneg_right (ratILog2_spec hq0).1
            (le_of_lt (two_zpow_pos _))

/-- Evaluation helper: `fround q` from an explicit bracket exponent and an
explicit rounded significand. -/
theorem fround_eq_of {q : ℚ} {k : ℤ} {n : ℤ} (hq : 0 < q)
    (h1 : (2 : ℚ) ^ k ≤ q) (h2 : q < 2 ^ (k + 1))
    (hn : rhe (q * 2 ^ (52 - k)) = n) :
    fround q = (n : ℚ) * 2 ^ (k - 52) := by
  rw [fround, if_neg (not_le.mpr hq), ratILog2_eq_of_bracket hq h1 h2, hn]

/-- Evaluation helper: `rhe` when the fraction is below one half. -/
theorem rhe_eq_of_lt {m : ℚ} {n : ℤ} (h1 : (n : ℚ) ≤ m) (h2 : m < n + 1 / 2) :
    rhe m = n := by
  have hfl : ⌊m⌋ = n := by
    rw [Int.floor_eq_iff]
    constructor
    · exact h1
    · linarith
  rw [rhe, hfl, if_pos (by linarith)]

/-- Evaluation helper: `rhe` when the fraction is above one half. -/
theorem rhe_eq_of_gt {m : ℚ} {n : ℤ} (h1 : (n : ℚ) + 1 / 2 < m) (h2 : m < n + 1) :
    rhe m = n + 1 := by
  have hfl : ⌊m⌋ = n := by
    rw [Int.floor_eq_iff]
    constructor
    · linarith
    · linarith
  rw [rhe, hfl, if_neg (by linarith), if_pos (by linarith)]

theorem fround_one : fround (1 : ℚ) = 1 := by
  rw [show (1 : ℚ) = ((1 : ℕ) : ℚ) by norm_num, fround_natCast (by norm_num)]

theorem fround_ten : fround (10 : ℚ) = 10 := by
  rw [show (10 : ℚ) = ((10 : ℕ) : ℚ) by norm_num, fround_natCast (by norm_num)]

theorem fround_twenty : fround (20 : ℚ) = 20 := by
  rw [show (20 : ℚ) = ((20 : ℕ) : ℚ) by norm_num, fround_natCast (by norm_num)]

theorem fround_seventy : fround (70 : ℚ) = 70 := by
  rw [show (70 : ℚ) = ((70 : ℕ) : ℚ) by norm_num, fround_natCast (by norm_num)]

theorem fround_eighty : fround (80 : ℚ) = 80 := by
  rw [show (80 : ℚ) = ((80 : ℕ) : ℚ) by norm_num, fround_natCast (by norm_num)]

theorem fround_hundred : fround (100 : ℚ) = 100 := by
  rw [show (100 : ℚ) = ((100 : ℕ) : ℚ) by norm_num, fround_natCast (by norm_num)]

/-- Bounds of the f64 progress blend: with received ≤ total, indexed ≤ total
and at least one object, the rounded sum lies in [10, 100]. -/
theorem cp_sum_bounds (r t i : ℕ) (hr : r ≤ t) (hi : i ≤ t) (ht : t ≠ 0) :
    (10 : ℚ) ≤ fround (fround (10 + fround (fround (fround (r : ℚ) /
        fround (t : ℚ)) * 70)) +
      fround (fround (fround (i : ℚ) / fround (t : ℚ)) * 20)) ∧
    fround (fround (10 + fround (fround (fround (r : ℚ) /
        fround (t : ℚ)) * 70)) +
      fround (fround (fround (i : ℚ) / fround (t : ℚ)) * 20)) ≤ 100 := by
  have htf1 : (1 : ℚ) ≤ fround (t : ℚ) := by
    rw [← fround_one]
    exact fround_mono (by exact_mod_cast Nat.one_le_iff_ne_zero.mpr ht)
  have htf0 : (0 : ℚ) < fround (t : ℚ) := lt_of_lt_of_le one_pos htf1
  have hrf : fround (r : ℚ) ≤ fround (t : ℚ) :=
    fround_mono (by exact_mod_cast hr)
  have hif : fround (i : ℚ) ≤ fround (t : ℚ) :=
    fround_mono (by exact_mod_cast hi)
  have hrf0 : (0 : ℚ) ≤ fround (r : ℚ) := fround_nonneg _
  have hif0 : (0 : ℚ) ≤ fround (i : ℚ) := fround_nonneg _
  have hdiv_r : fround (r : ℚ) / fround (t : ℚ) ≤ 1 :=
    (div_le_one htf0).mpr hrf
  have hdiv_r0 : (0 : ℚ) ≤ fround (r : ℚ) / fround (t : ℚ) :=
    div_nonneg hrf0 (le_of_lt htf0)
  have hdiv_i : fround (i : ℚ) / fround (t : ℚ) ≤ 1 :=
    (div_le_one htf0).mpr hif
  have hc_r : fround (fround (r : ℚ) / fround (t : ℚ)) ≤ 1 := by
    rw [← fround_one]
    exact fround_mono hdiv_r
  have hc_r0 : (0 : ℚ) ≤ fround (fround (r : ℚ) / fround (t : ℚ)) :=
    fround_nonneg _
  have hc_i : fround (fround (i : ℚ) / fround (t : ℚ)) ≤ 1 := by
    rw [← fround_one]
    exact fround_mono hdiv_i
  have hc_i0 : (0 : ℚ) ≤ fround (fround (i : ℚ) / fround (t : ℚ)) :=
    fround_nonneg _
  have hdl : fround (fround (fround (r : ℚ) / fround (t : ℚ)) * 70) ≤ 70 := by
    calc fround (fround (fround (r : ℚ) / fround (t : ℚ)) * 70)
        ≤ fround 70 := fround_mono (by nlinarith)
      _ = 70 := fround_seventy
  have hdl0 : (0 : ℚ) ≤ fround (fround (fround (r : ℚ) / fround (t : ℚ)) * 70) :=
    fround_nonneg _
  have hix : fround (fround (fround (i : ℚ) / fround (t : ℚ)) * 20) ≤ 20 := by
    calc fround (fround (fround (i : ℚ) / fround (t : ℚ)) * 20)
        ≤ fround 20 := fround_mono (by nlinarith)
      _ = 20 := fround_twenty
  have hix0 : (0 : ℚ) ≤ fround (fround (fround (i : ℚ) / fround (t : ℚ)) * 20) :=
    fround_nonneg _
  have ha10 : (10 : ℚ) ≤ fround (10 +
      fround (fround (fround (r : ℚ) / fround (t : ℚ)) * 70)) := by
    calc (10 : ℚ) = fround 10 := fround_ten.symm
      _ ≤ fround (10 + fround (fround (fround (r : ℚ) / fround (t : ℚ)) * 70)) :=
        fround_mono (by linarith)
  have ha80 : fround (10 +
      fround (fround (fround (r : ℚ) / fround (t : ℚ)) * 70)) ≤ 80 := by
    calc fround (10 + fround (fround (fround (r : ℚ) / fround (t : ℚ)) * 70))
        ≤ fround 80 := fround_mono (by linarith)
      _ = 80 := fround_eighty
  constructor
  · calc (10 : ℚ) = fround 10 := fround_ten.symm
      _ ≤ fround (fround (10 + fround (fround (fround (r : ℚ) /
            fround (t : ℚ)) * 70)) +
          fround (fround (fround (i : ℚ) / fround (t : ℚ)) * 20)) :=
        fround_mono (by linarith)
  · calc fround (fround (10 + fround (fround (fround (r : ℚ) /
            fround (t : ℚ)) * 70)) +
          fround (fround (fround (i : ℚ) / fround (t : ℚ)) * 20))
        ≤ fround 100 := fround_mono (by linarith)
      _ = 100 := fround_hundred

/-- ProgressData calculate_progress (clone.rs): 0 before any objects are
known, otherwise the f64 blend 10.0 plus 70 scaled by received/total plus 20
scaled by indexed/total, with every cast and arithmetic operation rounded to
binary64 as in the Rust code, truncated to u32 (saturating). -/
def calculate_progress (p : NetworkProgress) : Nat :=
  if p.total_objects = 0 then 0
  else
    let received_f := fround (p.received_objects : ℚ)
    let total_f := fround (p.total_objects : ℚ)
    let indexed_f := fround (p.indexed_objects : ℚ)
    let download_progress := fround (fround (received_f / total_f) * 70)
    let index_progress := fround (fround (indexed_f / total_f) * 20)
    let sum := fround (fround (10 + download_progress) + index_progress)
    min (Int.toNat ⌊sum⌋) 4294967295

/-- Bounds of calculate_progress with at least one object and counters not
exceeding the total. -/
theorem calculate_progress_bounds (p : NetworkProgress)
    (hr : p.received_objects ≤ p.total_objects)
    (hi : p.indexed_objects ≤ p.total_objects)
    (ht : p.total_objects ≠ 0) :
    10 ≤ calculate_progress p ∧ calculate_progress p ≤ 100 := by
  obtain ⟨hs10, hs100⟩ := cp_sum_bounds p.received_objects p.total_objects
    p.indexed_objects hr hi ht
  unfold calculate_progress
  rw [if_neg ht]
  have hfl10 : (10 : ℤ) ≤ ⌊fround (fround (10 + fround (fround (fround
      (p.received_objects : ℚ) / fround (p.total_objects : ℚ)) * 70)) +
      fround (fround (fround (p.indexed_objects : ℚ) /
        fround (p.total_objects : ℚ)) * 20))⌋ := by
    rw [Int.le_floor]
    exact_mod_cast hs10
  have hfl100 : ⌊fround (fround (10 + fround (fround (fround
      (p.received_objects : ℚ) / fround (p.total_objects : ℚ)) * 70)) +
      fround (fround (fround (p.indexed_objects : ℚ) /
        fround (p.total_objects : ℚ)) * 20))⌋ ≤ (100 : ℤ) := by
    have := Int.floor_le_floor hs100
    rw [show ⌊(100 : ℚ)⌋ = 100 by norm_num] at this
    exact this
  constructor
  · show 10 ≤ min (Int.toNat _) 4294967295
    omega
  · show min (Int.toNat _) 4294967295 ≤ 100
    omega

/-- Evaluation helper: `rhe` at an exact tie with even floor. -/
theorem rhe_eq_of_tie_even {m : ℚ} {n : ℤ} (h : m = (n : ℚ) + 1 / 2)
    (he : n % 2 = 0) : rhe m = n := by
  have hfl : ⌊m⌋ = n := by
    rw [Int.floor_eq_iff]
    constructor
    · rw [h]; linarith
    · rw [h]; linarith
  rw [rhe, hfl, if_neg (by rw [h]; linarith),
    if_neg (by rw [h]; linarith), if_pos he]

/-- Evaluation helper: `rhe` at an exact tie with odd floor. -/
theorem rhe_eq_of_tie_odd {m : ℚ} {n : ℤ} (h : m = (n : ℚ) + 1 / 2)
    (ho : ¬ n % 2 = 0) : rhe m = n + 1 := by
  have hfl : ⌊m⌋ = n := by
    rw [Int.floor_eq_iff]
    constructor
    · rw [h]; linarith
    · rw [h]; linarith
  rw [rhe, hfl, if_neg (by rw [h]; linarith),
    if_neg (by rw [h]; linarith), if_neg ho]

theorem cp_cex_eval : calculate_progress ⟨0, 166, 170, 48⟩ = 83 := by
  have e1 : fround (83 / 85 : ℚ) = 8795265154629439 / 9007199254740992 := by
    rw [fround_eq_of (k := -1) (n := 8795265154629439) (by norm_num) (by norm_num)
      (by norm_num)
      (by rw [show (83 / 85 : ℚ) * 2 ^ ((52 : ℤ) - -1) = 747597538143502336 / 85 by norm_num]
          exact rhe_eq_of_lt (by norm_num) (by norm_num))]
    norm_num
  have e2 : fround (307834280412030365 / 4503599627370496 : ℚ) = 2404955315718987 / 35184372088832 := by
    rw [fround_eq_of (k := 6) (n := 4809910631437974) (by norm_num) (by norm_num)
      (by norm_num)
      (by rw [show (307834280412030365 / 4503599627370496 : ℚ) * 2 ^ ((52 : ℤ) - 6) = 307834280412030365 / 64 by norm_num]
          exact rhe_eq_of_lt (by norm_num) (by norm_num))]
    norm_num
  have e3 : fround (2756799036607307 / 35184372088832 : ℚ) = 2756799036607307 / 35184372088832 := by
    rw [fround_eq_of (k := 6) (n := 5513598073214614) (by norm_num) (by norm_num)
      (by norm_num)
      (by rw [show (2756799036607307 / 35184372088832 : ℚ) * 2 ^ ((52 : ℤ) - 6) = 5513598073214614 by norm_num]
          exact rhe_eq_of_lt (by norm_num) (by norm_num))]
    norm_num
  have e4 : fround (24 / 85 : ℚ) = 2543209201338633 / 9007199254740992 := by
    rw [fround_eq_of (k := -2) (n := 5086418402677266) (by norm_num) (by norm_num)
      (by norm_num)
      (by rw [show (24 / 85 : ℚ) * 2 ^ ((52 : ℤ) - -2) = 432345564227567616 / 85 by norm_num]
          exact rhe_eq_of_lt (by norm_num) (by norm_num))]
    norm_num
  have e5 : fround (12716046006693165 / 2251799813685248 : ℚ) = 3179011501673291 / 562949953421312 := by
    rw [fround_eq_of (k := 2) (n := 6358023003346582) (by norm_num) (by norm_num)
      (by norm_num)
      (by rw [show (12716046006693165 / 2251799813685248 : ℚ) * 2 ^ ((52 : ℤ) - 2) = 12716046006693165 / 2 by norm_num]
          exact rhe_eq_of_tie_even (by norm_num) (by norm_num))]
    norm_num
  have e6 : fround (47287796087390203 / 562949953421312 : ℚ) = 5910974510923775 / 70368744177664 := by
    rw [fround_eq_of (k := 6) (n := 5910974510923775) (by norm_num) (by norm_num)
      (by norm_num)
      (by rw [show (47287796087390203 / 562949953421312 : ℚ) * 2 ^ ((52 : ℤ) - 6) = 47287796087390203 / 8 by norm_num]
          exact rhe_eq_of_lt (by norm_num) (by norm_num))]
    norm_num
  have n1 : (8795265154629439 / 9007199254740992 : ℚ) * 70 = 307834280412030365 / 4503599627370496 := by norm_num
  have n2 : (10 : ℚ) + 2404955315718987 / 35184372088832 = 2756799036607307 / 35184372088832 := by norm_num
  have n3 : (2543209201338633 / 9007199254740992 : ℚ) * 20 = 12716046006693165 / 2251799813685248 := by norm_num
  have n4 : (2756799036607307 / 35184372088832 : ℚ) + 3179011501673291 / 562949953421312 = 47287796087390203 / 562949953421312 := by norm_num
  have er : fround (((166 : ℕ) : ℚ)) = (166 : ℚ) := by
    rw [show (((166 : ℕ) : ℚ)) = ((166 : ℕ) : ℚ) from rfl, fround_natCast (by norm_num)]
    norm_num
  have et : fround (((170 : ℕ) : ℚ)) = (170 : ℚ) := by
    rw [fround_natCast (by norm_num)]
    norm_num
  have ei : fround (((48 : ℕ) : ℚ)) = (48 : ℚ) := by
    rw [fround_natCast (by norm_num)]
    norm_num
  have hfloor : ⌊(5910974510923775 / 70368744177664 : ℚ)⌋ = 83 := by
    rw [Int.floor_eq_iff]
    constructor
    · norm_num
    · norm_num
  unfold calculate_progress
  rw [if_neg (by norm_num)]
  show min (Int.toNat ⌊fround (fround (10 + fround (fround (fround (((166 : ℕ) : ℚ)) / fround (((170 : ℕ) : ℚ))) * 70)) + fround (fround (fround (((48 : ℕ) : ℚ)) / fround (((170 : ℕ) : ℚ))) * 20))⌋) 4294967295 = 83
  rw [er, et, ei]
  rw [show (166 : ℚ) / 170 = 83 / 85 from by norm_num]
  rw [show (48 : ℚ) / 170 = 24 / 85 from by norm_num]
  rw [e1, n1, e2, n2, e3, e4, n3, e5, n4, e6, hfloor]
  decide

/-- Division error core: one rounded division of rounded casts stays within
3·2^(-53) of the exact ratio, for numerator ≤ denominator. -/
theorem cast_div_close (a t : ℕ) (ha : a ≤ t) (ht : t ≠ 0) :
    |fround (a : ℚ) / fround (t : ℚ) - (a : ℚ) / (t : ℚ)| ≤
      3 * 2 ^ (-(53 : ℤ)) := by
  have hu : ((2 : ℚ) ^ (-(53 : ℤ))) = 1 / 9007199254740992 := by norm_num
  have ht0 : (0 : ℚ) < t := by
    have := Nat.one_le_iff_ne_zero.mpr ht
    exact_mod_cast Nat.lt_of_lt_of_le Nat.zero_lt_one this
  have ha0 : (0 : ℚ) ≤ a := by positivity
  have hart : (a : ℚ) ≤ t := by exact_mod_cast ha
  have hA := fround_err ha0
  have hB := fround_err (le_of_lt ht0)
  rw [abs_le] at hA hB
  have hB1 : (1 : ℚ) ≤ fround (t : ℚ) := by
    rw [← fround_one]
    exact fround_mono (by exact_mod_cast Nat.one_le_iff_ne_zero.mpr ht)
  have hB0 : (0 : ℚ) < fround (t : ℚ) := lt_of_lt_of_le one_pos hB1
  have hA0 : (0 : ℚ) ≤ fround (a : ℚ) := fround_nonneg _
  rw [abs_le]
  rw [hu] at hA hB ⊢
  constructor
  · rw [← sub_nonneg]
    have hid : (fround (a : ℚ) / fround (t : ℚ) - (a : ℚ) / (t : ℚ) +
        3 * (1 / 9007199254740992)) * (fround (t : ℚ) * (t : ℚ)) =
        fround (a : ℚ) * t - (a : ℚ) * fround (t : ℚ) +
          3 * (1 / 9007199254740992) * (fround (t : ℚ) * t) := by
      field_simp
      ring
    have hpos : (0 : ℚ) < fround (t : ℚ) * (t : ℚ) := mul_pos hB0 ht0
    have hnum : (0 : ℚ) ≤ fround (a : ℚ) * t - (a : ℚ) * fround (t : ℚ) +
        3 * (1 / 9007199254740992) * (fround (t : ℚ) * t) := by
      nlinarith [hA.1, hA.2, hB.1, hB.2, mul_pos ht0 ht0,
        mul_le_mul_of_nonneg_right hart (le_of_lt ht0)]
    nlinarith [hid, hnum, hpos]
  · rw [← sub_nonneg]
    have hid : (3 * (1 / 9007199254740992) -
        (fround (a : ℚ) / fround (t : ℚ) - (a : ℚ) / (t : ℚ))) *
        (fround (t : ℚ) * (t : ℚ)) =
        (a : ℚ) * fround (t : ℚ) - fround (a : ℚ) * t +
          3 * (1 / 9007199254740992) * (fround (t : ℚ) * t) := by
      field_simp
      ring
    have hpos : (0 : ℚ) < fround (t : ℚ) * (t : ℚ) := mul_pos hB0 ht0
    have hnum : (0 : ℚ) ≤ (a : ℚ) * fround (t : ℚ) - fround (a : ℚ) * t +
        3 * (1 / 9007199254740992) * (fround (t : ℚ) * t) := by
      nlinarith [hA.1, hA.2, hB.1, hB.2, mul_pos ht0 ht0,
        mul_le_mul_of_nonneg_right hart (le_of_lt ht0)]
    nlinarith [hid, hnum, hpos]

/-- The rounded f64 blend stays within 1/1024 of the exact blend. -/
theorem cp_sum_close (r t i : ℕ) (hr : r ≤ t) (hi : i ≤ t) (ht : t ≠ 0) :
    |fround (fround (10 + fround (fround (fround (r : ℚ) /
        fround (t : ℚ)) * 70)) +
      fround (fround (fround (i : ℚ) / fround (t : ℚ)) * 20)) -
      (10 + 70 * ((r : ℚ) / (t : ℚ)) + 20 * ((i : ℚ) / (t : ℚ)))| ≤
      1 / 1024 := by
  have hu : ((2 : ℚ) ^ (-(53 : ℤ))) = 1 / 9007199254740992 := by norm_num
  have ht0 : (0 : ℚ) < t := by
    have := Nat.one_le_iff_ne_zero.mpr ht
    exact_mod_cast Nat.lt_of_lt_of_le Nat.zero_lt_one this
  have hx0 : (0 : ℚ) ≤ (r : ℚ) / (t : ℚ) := by positivity
  have hx1 : (r : ℚ) / (t : ℚ) ≤ 1 := (div_le_one ht0).mpr (by exact_mod_cast hr)
  have hy0 : (0 : ℚ) ≤ (i : ℚ) / (t : ℚ) := by positivity
  have hy1 : (i : ℚ) / (t : ℚ) ≤ 1 := (div_le_one ht0).mpr (by exact_mod_cast hi)
  have hC := cast_div_close r t hr ht
  have hC2 := cast_div_close i t hi ht
  rw [hu, abs_le] at hC hC2
  have hC0 : (0 : ℚ) ≤ fround (r : ℚ) / fround (t : ℚ) :=
    div_nonneg (fround_nonneg _) (fround_nonneg _)
  have hC20 : (0 : ℚ) ≤ fround (i : ℚ) / fround (t : ℚ) :=
    div_nonneg (fround_nonneg _) (fround_nonneg _)
  have hc := fround_err hC0
  have hc2 := fround_err hC20
  rw [hu, abs_le] at hc hc2
  have hc0 : (0 : ℚ) ≤ fround (fround (r : ℚ) / fround (t : ℚ)) :=
    fround_nonneg _
  have hc20 : (0 : ℚ) ≤ fround (fround (i : ℚ) / fround (t : ℚ)) :=
    fround_nonneg _
  have hD := fround_err (mul_nonneg hc0 (by norm_num : (0:ℚ) ≤ 70))
  have hD2 := fround_err (mul_nonneg hc20 (by norm_num : (0:ℚ) ≤ 20))
  rw [hu, abs_le] at hD hD2
  have hD0 : (0 : ℚ) ≤ fround (fround (fround (r : ℚ) / fround (t : ℚ)) * 70) :=
    fround_nonneg _
  have hD20 : (0 : ℚ) ≤ fround (fround (fround (i : ℚ) / fround (t : ℚ)) * 20) :=
    fround_nonneg _
  have hE := fround_err (by linarith :
    (0 : ℚ) ≤ 10 + fround (fround (fround (r : ℚ) / fround (t : ℚ)) * 70))
  rw [hu, abs_le] at hE
  have hE0 : (0 : ℚ) ≤ fround (10 +
      fround (fround (fround (r : ℚ) / fround (t : ℚ)) * 70)) :=
    fround_nonneg _
  have hS := fround_err (by linarith :
    (0 : ℚ) ≤ fround (10 + fround (fround (fround (r : ℚ) /
        fround (t : ℚ)) * 70)) +
      fround (fround (fround (i : ℚ) / fround (t : ℚ)) * 20))
  rw [hu, abs_le] at hS
  rw [abs_le]
  constructor <;> linarith [hC.1, hC.2, hC2.1, hC2.2, hc.1, hc.2, hc2.1,
    hc2.2, hD.1, hD.2, hD2.1, hD2.2, hE.1, hE.2, hS.1, hS.2, hx0, hx1, hy0, hy1]

/-- The f64 progress value is within 1 of the exact integer truncation
(10t + 70r + 20i) / t. -/
theorem calculate_progress_close (p : NetworkProgress)
    (hr : p.received_objects ≤ p.total_objects)
    (hi : p.indexed_objects ≤ p.total_objects)
    (ht : p.total_objects ≠ 0) :
    (10 * p.total_objects + 70 * p.received_objects + 20 * p.indexed_objects) /
        p.total_objects ≤ calculate_progress p + 1 ∧
    calculate_progress p ≤ (10 * p.total_objects + 70 * p.received_objects +
        20 * p.indexed_objects) / p.total_objects + 1 := by
  have ht0 : (0 : ℚ) < p.total_objects := by
    have := Nat.one_le_iff_ne_zero.mpr ht
    exact_mod_cast Nat.lt_of_lt_of_le Nat.zero_lt_one this
  have hX : (10 : ℚ) + 70 * ((p.received_objects : ℚ) / p.total_objects) +
      20 * ((p.indexed_objects : ℚ) / p.total_objects) =
      ((10 * p.total_objects + 70 * p.received_objects +
        20 * p.indexed_objects : ℕ) : ℚ) / (p.total_objects : ℚ) := by
    push_cast
    field_simp
  have hXfloor : ⌊(10 : ℚ) + 70 * ((p.received_objects : ℚ) / p.total_objects) +
      20 * ((p.indexed_objects : ℚ) / p.total_objects)⌋ =
      (((10 * p.total_objects + 70 * p.received_objects +
        20 * p.indexed_objects) / p.total_objects : ℕ) : ℤ) := by
    rw [hX, Rat.floor_natCast_div_natCast]
    exact (Int.ofNat_tdiv _ _).symm
  obtain ⟨hs10, hs100⟩ := cp_sum_bounds p.received_objects p.total_objects
    p.indexed_objects hr hi ht
  have hclose := cp_sum_close p.received_objects p.total_objects
    p.indexed_objects hr hi ht
  rw [abs_le] at hclose
  have hXle : ((⌊(10 : ℚ) + 70 * ((p.received_objects : ℚ) / p.total_objects) +
      20 * ((p.indexed_objects : ℚ) / p.total_objects)⌋ : ℤ) : ℚ) ≤
      (10 : ℚ) + 70 * ((p.received_objects : ℚ) / p.total_objects) +
      20 * ((p.indexed_objects : ℚ) / p.total_objects) := Int.floor_le _
  have hXlt := Int.lt_floor_add_one ((10 : ℚ) +
      70 * ((p.received_objects : ℚ) / p.total_objects) +
      20 * ((p.indexed_objects : ℚ) / p.total_objects))
  have hSlow : ⌊(10 : ℚ) + 70 * ((p.received_objects : ℚ) / p.total_objects) +
      20 * ((p.indexed_objects : ℚ) / p.total_objects)⌋ - 1 ≤
      ⌊fround (fround (10 + fround (fround (fround
        (p.received_objects : ℚ) / fround (p.total_objects : ℚ)) * 70)) +
        fround (fround (fround (p.indexed_objects : ℚ) /
          fround (p.total_objects : ℚ)) * 20))⌋ := by
    rw [Int.le_floor]
    push_cast
    linarith
  have hShigh : ⌊fround (fround (10 + fround (fround (fround
      (p.received_objects : ℚ) / fround (p.total_objects : ℚ)) * 70)) +
      fround (fround (fround (p.indexed_objects : ℚ) /
        fround (p.total_objects : ℚ)) * 20))⌋ ≤
      ⌊(10 : ℚ) + 70 * ((p.received_objects : ℚ) / p.total_objects) +
      20 * ((p.indexed_objects : ℚ) / p.total_objects)⌋ + 1 := by
    have : ⌊fround (fround (10 + fround (fround (fround
        (p.received_objects : ℚ) / fround (p.total_objects : ℚ)) * 70)) +
        fround (fround (fround (p.indexed_objects : ℚ) /
          fround (p.total_objects : ℚ)) * 20))⌋ <
        ⌊(10 : ℚ) + 70 * ((p.received_objects : ℚ) / p.total_objects) +
        20 * ((p.indexed_objects : ℚ) / p.total_objects)⌋ + 2 := by
      rw [Int.floor_lt]
      push_cast
      linarith
    omega
  have hfl10 : (10 : ℤ) ≤ ⌊fround (fround (10 + fround (fround (fround
      (p.received_objects : ℚ) / fround (p.total_objects : ℚ)) * 70)) +
      fround (fround (fround (p.indexed_objects : ℚ) /
        fround (p.total_objects : ℚ)) * 20))⌋ := by
    rw [Int.le_floor]
    exact_mod_cast hs10
  have hn100 : 10 * p.total_objects + 70 * p.received_objects +
      20 * p.indexed_objects ≤ 100 * p.total_objects := by omega
  have hdiv100 : (10 * p.total_objects + 70 * p.received_objects +
      20 * p.indexed_objects) / p.total_objects ≤ 100 := by
    calc (10 * p.total_objects + 70 * p.received_objects +
        20 * p.indexed_objects) / p.total_objects
        ≤ 100 * p.total_objects / p.total_objects := Nat.div_le_div_right hn100
      _ = 100 := Nat.mul_div_cancel 100 (Nat.pos_of_ne_zero ht)
  unfold calculate_progress
  rw [if_neg ht]
  rw [hXfloor] at hSlow hShigh
  show (10 * p.total_objects + 70 * p.received_objects +
      20 * p.indexed_objects) / p.total_objects ≤
      min (Int.toNat _) 4294967295 + 1 ∧
    min (Int.toNat _) 4294967295 ≤ (10 * p.total_objects +
      70 * p.received_objects + 20 * p.indexed_objects) / p.total_objects + 1
  omega

/-- C7 (counterexample): the claim is false as stated — at
received_objects = 166, total_objects = 170, indexed_objects = 48 the program
computes 83 (the f64 sum 10.0 + (166/170)*70.0 + (48/170)*20.0 lands strictly
below 84.0), while the integer truncation of the exact formula
10 + 70*(166/170) + 20*(48/170) is 84. -/
theorem calculate_progress_f64_cex :
    calculate_progress ⟨0, 166, 170, 48⟩ = 83 ∧
    (10 * 170 + 70 * 166 + 20 * 48) / 170 = 84 ∧ (83 : ℕ) ≠ 84 :=
  ⟨cp_cex_eval, by norm_num, by decide⟩

/-- C7 (amended): the clone progress percentage is 0 whenever
total_objects = 0; otherwise it is the truncation of the blend
10 + 70·(received/total) + 20·(indexed/total) evaluated in f64 arithmetic,
which — under received ≤ total and indexed ≤ total — lies in [10, 100] and
is within 1 of the integer truncation (10t + 70r + 20i)/t of the exact
formula (with which it does not always coincide, see the counterexample). -/
theorem clone_progress_f64_formula (p : NetworkProgress) :
    (p.total_objects = 0 → calculate_progress p = 0) ∧
    (p.total_objects ≠ 0 → p.received_objects ≤ p.total_objects →
      p.indexed_objects ≤ p.total_objects →
      (10 ≤ calculate_progress p ∧ calculate_progress p ≤ 100) ∧
      ((10 * p.total_objects + 70 * p.received_objects +
          20 * p.indexed_objects) / p.total_objects ≤ calculate_progress p + 1 ∧
        calculate_progress p ≤ (10 * p.total_objects + 70 * p.received_objects +
          20 * p.indexed_objects) / p.total_objects + 1)) := by
  constructor
  · intro h0
    simp [calculate_progress, h0]
  · intro ht hr hi
    exact ⟨calculate_progress_bounds p hr hi ht,
      calculate_progress_close p hr hi ht⟩

/-- Witness for C7 (amended) at a concrete input: 3 of 4 objects received and
2 of 4 indexed; the percentage is bounded by [10, 100] and within 1 of
(10·4 + 70·3 + 20·2)/4 = 72. -/
theorem clone_progress_f64_formula_witness :
    (10 ≤ calculate_progress ⟨0, 3, 4, 2⟩ ∧
      calculate_progress ⟨0, 3, 4, 2⟩ ≤ 100) ∧
    ((10 * 4 + 70 * 3 + 20 * 2) / 4 ≤ calculate_progress ⟨0, 3, 4, 2⟩ + 1 ∧
      calculate_progress ⟨0, 3, 4, 2⟩ ≤ (10 * 4 + 70 * 3 + 20 * 2) / 4 + 1) :=
  (clone_progress_f64_formula ⟨0, 3, 4, 2⟩).2 (by decide) (by decide) (by decide)

/-- Model of `CloneStage` from types.rs. -/
inductive CloneStage where
  | Initializing
  | Connecting
  | Downloading
  | Unpacking
  | CheckingOut
  | Completed
  | Error
  deriving DecidableEq, Repr

/-- One emitted `clone-progress` event: its stage and percentage (the
operation id is fixed for the whole call and omitted). -/
structure EmittedProgress where
  stage : CloneStage
  percent : Nat
  deriving DecidableEq, Repr

/-- The `clone-progress` events emitted by a successful `clone_with_libgit2`
run (clone.rs), in order: Initializing 0, Connecting 10, one Downloading
event per transfer-progress callback (with the blended percentage), then
CheckingOut 80, the submodule events when recursing (CheckingOut 85 and one
CheckingOut 90 per submodule), and finally Completed 100. -/
def clone_with_libgit2_emits (transfer : List NetworkProgress)
    (recursive : Bool) (submoduleCount : Nat) : List EmittedProgress :=
  ⟨CloneStage.Initializing, 0⟩ :: ⟨CloneStage.Connecting, 10⟩ ::
    (transfer.map (fun p => ⟨CloneStage.Downloading, calculate_progress p⟩) ++
      (⟨CloneStage.CheckingOut, 80⟩ ::
        ((if recursive then
            ⟨CloneStage.CheckingOut, 85⟩ ::
              List.replicate submoduleCount ⟨CloneStage.CheckingOut, 90⟩
          else []) ++
          [⟨CloneStage.Completed, 100⟩])))

/-- C8 (counterexample): the claim is false as stated — when a
transfer-progress callback fires before any objects are known
(total_objects = 0), the emitted percentage is 0 although Connecting already
emitted 10, so the percentage sequence of this successful clone is not
monotonically non-decreasing. -/
theorem clone_progress_not_monotone_cex :
    ¬ List.Chain' (fun a b => a ≤ b)
      ((clone_with_libgit2_emits [⟨0, 0, 0, 0⟩] false 0).map
        (fun e => e.percent)) := by
  intro hmono
  rw [show (clone_with_libgit2_emits [⟨0, 0, 0, 0⟩] false 0).map
      (fun e => e.percent) = [0, 10, 0, 80, 100] from rfl] at hmono
  exact absurd (List.chain'_cons.mp (List.chain'_cons.mp hmono).2).1 (by decide)

/-- C8 (amended): provided every transfer-progress callback reports
received ≤ total and indexed ≤ total objects (as libgit2 does), every
percentage emitted under the one operation id of a successful clone lies in
[0, 100], and the final emitted event is Completed with percent 100.  The
monotonicity asserted by the original claim does not hold (see the
counterexample). -/
theorem clone_progress_bounds_final (transfer : List NetworkProgress)
    (recursive : Bool) (n : Nat)
    (h : ∀ p ∈ transfer, p.received_objects ≤ p.total_objects ∧
      p.indexed_objects ≤ p.total_objects) :
    (∀ e ∈ clone_with_libgit2_emits transfer recursive n,
      0 ≤ e.percent ∧ e.percent ≤ 100) ∧
    (clone_with_libgit2_emits transfer recursive n).getLast? =
      some ⟨CloneStage.Completed, 100⟩ := by
  have hcalc : ∀ p ∈ transfer, calculate_progress p ≤ 100 := by
    intro p hp
    by_cases ht : p.total_objects = 0
    · simp [calculate_progress, ht]
    · exact (calculate_progress_bounds p (h p hp).1 (h p hp).2 ht).2
  constructor
  · intro e he
    refine ⟨Nat.zero_le _, ?_⟩
    simp only [clone_with_libgit2_emits] at he
    rcases List.mem_cons.mp he with rfl | he
    · decide
    rcases List.mem_cons.mp he with rfl | he
    · decide
    rcases List.mem_append.mp he with hmap | he
    · obtain ⟨p, hp, rfl⟩ := List.mem_map.mp hmap
      exact hcalc p hp
    rcases List.mem_cons.mp he with rfl | he
    · decide
    rcases List.mem_append.mp he with hif | he
    · cases recursive with
      | true =>
        rcases List.mem_cons.mp hif with rfl | hrep
        · decide
        · rw [List.eq_of_mem_replicate hrep]
          decide
      | false => simp at hif
    · rcases List.mem_cons.mp he with rfl | he
      · decide
      · simp at he
  · have hshape : clone_with_libgit2_emits transfer recursive n =
        (⟨CloneStage.Initializing, 0⟩ :: ⟨CloneStage.Connecting, 10⟩ ::
          (transfer.map (fun p => ⟨CloneStage.Downloading, calculate_progress p⟩) ++
            ⟨CloneStage.CheckingOut, 80⟩ ::
              (if recursive then
                ⟨CloneStage.CheckingOut, 85⟩ ::
                  List.replicate n ⟨CloneStage.CheckingOut, 90⟩
              else []))) ++ [⟨CloneStage.Completed, 100⟩] := by
      simp [clone_with_libgit2_emits]
    rw [hshape, List.getLast?_concat]

/-- Witness for C8 (amended) at a concrete input: a recursive clone with one
submodule and two transfer callbacks (0 of 0 known, then 4 of 4 received and
indexed). -/
theorem clone_progress_bounds_final_witness :
    (∀ e ∈ clone_with_libgit2_emits [⟨0, 0, 0, 0⟩, ⟨9, 4, 4, 4⟩] true 1,
      0 ≤ e.percent ∧ e.percent ≤ 100) ∧
    (clone_with_libgit2_emits [⟨0, 0, 0, 0⟩, ⟨9, 4, 4, 4⟩] true 1).getLast? =
      some ⟨CloneStage.Completed, 100⟩ :=
  clone_progress_bounds_final [⟨0, 0, 0, 0⟩, ⟨9, 4, 4, 4⟩] true 1 (by decide)

/-- Model of `FileStatus` from types.rs. -/
structure FileStatus where
  path : String
  status : String
  staged : Bool
  additions : Nat
  deletions : Nat
  deriving DecidableEq, Repr

/-- Model of `SwitchResult` (operations.rs). -/
structure SwitchResult where
  success : Bool
  message : String
  has_uncommitted_changes : Bool
  uncommitted_files : List String
  deriving DecidableEq, Repr

/-- Abstraction of the repository state read and mutated by the branch
manager (operations.rs): the file entries `get_repository_status` reports
(staged and unstaged changes), the current HEAD refname, an abstract
working-tree value, the local and remote branches with their target OIDs,
the git config entries, and whether `checkout_tree` would fail on this
repository (an abstract input standing for the libgit2 checkout outcome). -/
structure BranchRepo where
  statusFiles : List FileStatus
  head : String
  worktree : Nat
  localBranches : List (String × Nat)
  remoteBranches : List (String × Nat)
  config : List (String × String)
  checkoutFails : Bool
  deriving DecidableEq, Repr

/-- Model of `switch_branch` (operations.rs): refuse (with a reported, non-fatal
result) when the status lists any uncommitted file; otherwise look up the
local branch, move HEAD, and check out the branch tree. -/
def switch_branch (repo : BranchRepo) (branch_name : String) :
    BranchRepo × Except GitError SwitchResult :=
  let files := repo.statusFiles
  let uncommitted_files := files.map (fun f => f.path)
  if !files.isEmpty then
    (repo, Except.ok ⟨false, "存在未提交的变更，请先提交或暂存变更", true,
      uncommitted_files⟩)
  else
    match repo.localBranches.find? (fun b => b.1 == branch_name) with
    | none =>
      (repo, Except.error (GitError.Unknown
        ("分支 \x27" ++ branch_name ++ "\x27 不存在")))
    | some (_, branch_oid) =>
      let repo1 := { repo with head := "refs/heads/" ++ branch_name }
      if repo1.checkoutFails then
        (repo1, Except.error (GitError.Git "checkout_tree failed"))
      else
        ({ repo1 with worktree := branch_oid },
          Except.ok ⟨true, "成功切换到分支 \x27" ++ branch_name ++ "\x27",
            false, []⟩)

/-- Lemma: `switch_branch` on a repository with uncommitted changes returns the
reported (non-fatal) failure and leaves the repository unchanged. -/
theorem switch_branch_dirty_eq (repo : BranchRepo)
    (branch_name : String) (h : repo.statusFiles ≠ []) :
    switch_branch repo branch_name =
      (repo, Except.ok ⟨false, "存在未提交的变更，请先提交或暂存变更", true,
        repo.statusFiles.map (fun f => f.path)⟩) := by
  unfold switch_branch
  rw [if_pos]
  simp [List.isEmpty_iff, h]

/-- C6: a `switch_branch` call on a repository with any uncommitted change
(staged or unstaged) returns success = false and
has_uncommitted_changes = true with the blocking paths, does not raise an
error, and leaves the repository — HEAD and working tree included —
unchanged. -/
theorem switch_branch_blocked_on_uncommitted (repo : BranchRepo)
    (branch_name : String) (h : repo.statusFiles ≠ []) :
    switch_branch repo branch_name =
      (repo, Except.ok ⟨false, "存在未提交的变更，请先提交或暂存变更", true,
        repo.statusFiles.map (fun f => f.path)⟩) :=
  switch_branch_dirty_eq repo branch_name h

/-- Witness for C6 at a concrete input: a repository with one modified,
unstaged file `a.txt`. -/
theorem switch_branch_blocked_on_uncommitted_witness :
    switch_branch
        ⟨[⟨"a.txt", "modified", false, 1, 2⟩], "refs/heads/main", 0,
          [("main", 1), ("dev", 2)], [], [], false⟩ "dev" =
      (⟨[⟨"a.txt", "modified", false, 1, 2⟩], "refs/heads/main", 0,
          [("main", 1), ("dev", 2)], [], [], false⟩,
        Except.ok ⟨false, "存在未提交的变更，请先提交或暂存变更", true,
          ["a.txt"]⟩) :=
  switch_branch_blocked_on_uncommitted
    ⟨[⟨"a.txt", "modified", false, 1, 2⟩], "refs/heads/main", 0,
      [("main", 1), ("dev", 2)], [], [], false⟩ "dev" (by decide)

/-- Model of `extract_local_branch_name` (operations.rs): everything after the first
`/`, or the whole name when it has no `/`.  `afterFirstSlash` models
`find('/')` plus the slice. -/
def afterFirstSlash : List Char → Option (List Char)
  | [] => none
  | c :: rest => if c = '/' then some rest else afterFirstSlash rest

/-- The characters before the first `/` (used by `set_upstream_branch`). -/
def beforeFirstSlash : List Char → List Char
  | [] => []
  | c :: rest => if c = '/' then [] else c :: beforeFirstSlash rest

/-- Model of `extract_local_branch_name` (operations.rs). -/
def extract_local_branch_name (remote_branch_name : String) : String :=
  match afterFirstSlash remote_branch_name.toList with
  | some rest => String.mk rest
  | none => remote_branch_name

/-- Model of `set_upstream_branch` (operations.rs): split the remote branch name at
its first `/` into remote and branch, then write the
`branch.<local>.remote` and `branch.<local>.merge` config entries. -/
def set_upstream_branch (repo : BranchRepo) (local_branch remote_branch : String) :
    BranchRepo × Except GitError Unit :=
  match afterFirstSlash remote_branch.toList with
  | none => (repo, Except.error (GitError.Unknown "无效的远程分支名称格式"))
  | some branchChars =>
    let remote_name := String.mk (beforeFirstSlash remote_branch.toList)
    let branch_name := String.mk branchChars
    ({ repo with config :=
        ("branch." ++ local_branch ++ ".remote", remote_name) ::
        ("branch." ++ local_branch ++ ".merge", "refs/heads/" ++ branch_name) ::
        repo.config },
      Except.ok ())

/-- Model of `checkout_remote_branch` (operations.rs): derive the local name, refuse
when it already exists, find the remote branch, create the local branch at
its commit, best-effort set its upstream (failure logged, ignored), then
switch to it.  When the switch completes with success = false the created
branch is deleted and an error returned; when `switch_branch` itself raises,
the `?` operator propagates the error directly. -/
def checkout_remote_branch_core (repo : BranchRepo) (remote_branch_name : String)
    (local_name : String) : BranchRepo × Except GitError SwitchResult :=
  if (repo.localBranches.find? (fun b => b.1 == local_name)).isSome then
    (repo, Except.error (GitError.Unknown
      ("本地分支 \x27" ++ local_name ++ "\x27 已存在")))
  else
    match repo.remoteBranches.find? (fun b => b.1 == remote_branch_name) with
    | none =>
      (repo, Except.error (GitError.Unknown
        ("远程分支 \x27" ++ remote_branch_name ++ "\x27 不存在")))
    | some (_, remote_oid) =>
      let repo1 := { repo with
        localBranches := (local_name, remote_oid) :: repo.localBranches }
      let repo2 := (set_upstream_branch repo1 local_name remote_branch_name).1
      match switch_branch repo2 local_name with
      | (repo3, Except.error e) => (repo3, Except.error e)
      | (repo3, Except.ok sr) =>
        if sr.success then
          (repo3, Except.ok ⟨true,
            "成功检出远程分支 \x27" ++ remote_branch_name ++
              "\x27 到本地分支 \x27" ++ local_name ++ "\x27", false, []⟩)
        else
          let repo4 := { repo3 with localBranches :=
            repo3.localBranches.filter (fun b => b.1 != local_name) }
          (repo4, Except.error (GitError.Unknown
            ("检出成功但切换失败: " ++ sr.message)))

/-- Model of `checkout_remote_branch` (operations.rs): resolve the local branch name
(strip everything up to the first `/` of the remote name unless an explicit
name is given) and run the checkout. -/
def checkout_remote_branch (repo : BranchRepo) (remote_branch_name : String)
    (local_branch_name : Option String) : BranchRepo × Except GitError SwitchResult :=
  checkout_remote_branch_core repo remote_branch_name
    (match local_branch_name with
     | some name => name
     | none => extract_local_branch_name remote_branch_name)

/-- A list in which no entry is named `n` is unchanged by filtering entries
named `n` out. -/
theorem filter_ne_of_find_none (l : List (String × Nat)) (n : String)
    (h : l.find? (fun b => b.1 == n) = none) :
    l.filter (fun b => b.1 != n) = l := by
  induction l with
  | nil => rfl
  | cons x t ih =>
    cases hx : (x.1 == n) with
    | true => simp [List.find?_cons, hx] at h
    | false =>
      simp only [List.find?_cons, hx] at h
      have hxne : (x.1 != n) = true := by simp [bne, hx]
      rw [List.filter_cons, if_pos hxne, ih h]

/-- C9 (counterexample): the claim is false as stated — on a clean repository
whose `checkout_tree` step fails, `checkout_remote_branch` propagates the
error through the `?` operator and the just-created local branch `f` is left
behind in the repository. -/
theorem checkout_remote_branch_cex :
    (checkout_remote_branch
        ⟨[], "refs/heads/main", 0, [], [("origin/f", 7)], [], true⟩
        "origin/f" none).2 =
      Except.error (GitError.Git "checkout_tree failed") ∧
    (checkout_remote_branch
        ⟨[], "refs/heads/main", 0, [], [("origin/f", 7)], [], true⟩
        "origin/f" none).1.localBranches = [("f", 7)] :=
  ⟨rfl, rfl⟩

/-- Lemma: `set_upstream_branch` changes only config entries: the status files, the
local branch list and the checkout outcome are untouched. -/
theorem set_upstream_branch_fields (repo : BranchRepo) (lb rb : String) :
    (set_upstream_branch repo lb rb).1.statusFiles = repo.statusFiles ∧
    (set_upstream_branch repo lb rb).1.localBranches = repo.localBranches ∧
    (set_upstream_branch repo lb rb).1.checkoutFails = repo.checkoutFails := by
  unfold set_upstream_branch
  cases afterFirstSlash rb.toList <;> simp

/-- Lemma: `switch_branch` on a clean repository whose checkout step fails raises a
library error after moving HEAD, leaving the branch list intact. -/
theorem switch_branch_checkout_fails_eq (repo : BranchRepo) (branch_name : String)
    (oid : Nat) (hclean : repo.statusFiles = [])
    (hfind : repo.localBranches.find? (fun b => b.1 == branch_name) =
      some (branch_name, oid))
    (hco : repo.checkoutFails = true) :
    switch_branch repo branch_name =
      ({ repo with head := "refs/heads/" ++ branch_name },
        Except.error (GitError.Git "checkout_tree failed")) := by
  simp [switch_branch, hclean, hfind, hco]

/-- C9 (amended), core part: when the preconditions of branch creation hold
(the local name is free and the remote branch exists), then (a) if the switch
step completes and reports failure (here: because of uncommitted changes),
the just-created local branch is deleted before the call returns an error,
restoring the original branch list; but (b) if the switch step itself raises
an error (here: a failing checkout), the error is propagated and the created
branch is NOT deleted. -/
theorem checkout_core_cleanup (repo : BranchRepo) (rbn ln rn : String) (oid : Nat)
    (hfree : repo.localBranches.find? (fun b => b.1 == ln) = none)
    (hremote : repo.remoteBranches.find? (fun b => b.1 == rbn) = some (rn, oid)) :
    (repo.statusFiles ≠ [] →
      (checkout_remote_branch_core repo rbn ln).1.localBranches =
        repo.localBranches ∧
      (checkout_remote_branch_core repo rbn ln).2 = Except.error
        (GitError.Unknown "检出成功但切换失败: 存在未提交的变更，请先提交或暂存变更")) ∧
    (repo.statusFiles = [] → repo.checkoutFails = true →
      (checkout_remote_branch_core repo rbn ln).1.localBranches =
        (ln, oid) :: repo.localBranches ∧
      (checkout_remote_branch_core repo rbn ln).2 =
        Except.error (GitError.Git "checkout_tree failed")) := by
  obtain ⟨hsf, hlb, hcf⟩ := set_upstream_branch_fields
    { repo with localBranches := (ln, oid) :: repo.localBranches } ln rbn
  have hunfold : checkout_remote_branch_core repo rbn ln =
      (match switch_branch
          ((set_upstream_branch
            { repo with localBranches := (ln, oid) :: repo.localBranches }
            ln rbn).1) ln with
        | (repo3, Except.error e) => (repo3, Except.error e)
        | (repo3, Except.ok sr) =>
          if sr.success then
            (repo3, Except.ok ⟨true,
              "成功检出远程分支 \x27" ++ rbn ++ "\x27 到本地分支 \x27" ++
                ln ++ "\x27", false, []⟩)
          else
            ({ repo3 with localBranches :=
                repo3.localBranches.filter (fun b => b.1 != ln) },
              Except.error (GitError.Unknown
                ("检出成功但切换失败: " ++ sr.message)))) := by
    unfold checkout_remote_branch_core
    rw [hfree, hremote]
    rfl
  constructor
  · intro hst
    have hdirty := switch_branch_dirty_eq
      ((set_upstream_branch
        { repo with localBranches := (ln, oid) :: repo.localBranches }
        ln rbn).1) ln (by rw [hsf]; exact hst)
    have hfilter : ((set_upstream_branch
        { repo with localBranches := (ln, oid) :: repo.localBranches }
        ln rbn).1).localBranches.filter (fun b => b.1 != ln) =
        repo.localBranches := by
      rw [hlb, List.filter_cons]
      have hln : ((ln, oid).1 != ln) = false := by simp [bne]
      rw [if_neg (by rw [hln]; exact Bool.false_ne_true)]
      exact filter_ne_of_find_none repo.localBranches ln hfree
    rw [hunfold, hdirty]
    exact ⟨hfilter, rfl⟩
  · intro hst hco
    have hfind2 : ((set_upstream_branch
        { repo with localBranches := (ln, oid) :: repo.localBranches }
        ln rbn).1).localBranches.find? (fun b => b.1 == ln) = some (ln, oid) := by
      rw [hlb]
      simp [List.find?_cons]
    have hcheck := switch_branch_checkout_fails_eq
      ((set_upstream_branch
        { repo with localBranches := (ln, oid) :: repo.localBranches }
        ln rbn).1) ln oid (by rw [hsf]; exact hst) hfind2 (by rw [hcf]; exact hco)
    rw [hunfold, hcheck]
    exact ⟨hlb, rfl⟩

/-- C9 (amended): for every checkout of a remote branch whose derived or
explicit local name is free and whose remote branch exists, if the switch
step completes with success = false the just-created local branch is deleted
before the call returns; if the switch step raises an error, the error is
propagated and the created branch remains. -/
theorem checkout_remote_branch_cleanup (repo : BranchRepo) (rbn ln rn : String)
    (lbn : Option String) (oid : Nat)
    (hln : lbn = some ln ∨ (lbn = none ∧ ln = extract_local_branch_name rbn))
    (hfree : repo.localBranches.find? (fun b => b.1 == ln) = none)
    (hremote : repo.remoteBranches.find? (fun b => b.1 == rbn) = some (rn, oid)) :
    (repo.statusFiles ≠ [] →
      (checkout_remote_branch repo rbn lbn).1.localBranches =
        repo.localBranches ∧
      (checkout_remote_branch repo rbn lbn).2 = Except.error
        (GitError.Unknown "检出成功但切换失败: 存在未提交的变更，请先提交或暂存变更")) ∧
    (repo.statusFiles = [] → repo.checkoutFails = true →
      (checkout_remote_branch repo rbn lbn).1.localBranches =
        (ln, oid) :: repo.localBranches ∧
      (checkout_remote_branch repo rbn lbn).2 =
        Except.error (GitError.Git "checkout_tree failed")) := by
  have hcore := checkout_core_cleanup repo rbn ln rn oid hfree hremote
  rcases hln with rfl | ⟨rfl, rfl⟩
  · exact hcore
  · exact hcore

/-- Witness for C9 (amended) at a concrete input: checking out `origin/f` on
a repository with an uncommitted file deletes the created branch `f` and
returns the reported switch failure as an error. -/
theorem checkout_remote_branch_cleanup_witness :
    (checkout_remote_branch
        ⟨[⟨"a.txt", "modified", false, 1, 2⟩], "refs/heads/main", 0,
          [("main", 3)], [("origin/f", 7)], [], false⟩
        "origin/f" none).1.localBranches = [("main", 3)] ∧
    (checkout_remote_branch
        ⟨[⟨"a.txt", "modified", false, 1, 2⟩], "refs/heads/main", 0,
          [("main", 3)], [("origin/f", 7)], [], false⟩
        "origin/f" none).2 = Except.error
      (GitError.Unknown "检出成功但切换失败: 存在未提交的变更，请先提交或暂存变更") :=
  (checkout_remote_branch_cleanup
      ⟨[⟨"a.txt", "modified", false, 1, 2⟩], "refs/heads/main", 0,
        [("main", 3)], [("origin/f", 7)], [], false⟩
      "origin/f" "f" "origin/f" none 7
      (Or.inr ⟨rfl, rfl⟩) rfl rfl).1 (by decide)
